import Mathlib

/-!
A verification development for `project6/fs.c`.

The file system of `project6/fs.c` is a thin metadata layer over a raw block
device.  This development embeds the C code in Lean and states, for each claim
of the specification, what the code does.

Conventions of the embedding:

* A disk block (`union fs_block`, 4096 bytes) is viewed as 1024 `int` words,
  `Block = Nat → Int`.  The three views the code uses are word views:
  `super` is words 0..3, `inode[j]` is words `8*j .. 8*j+7`
  (`sizeof(struct fs_inode) = 32`), `pointers[x]` is word `x`.
* The block device (`disk.h`) is not part of the source; it is modelled from the
  specification as an array of `disk_size` blocks.  A block number outside
  `[0, disk_size)` is a device error.
* `FREE_BLOCK_MAP` is a heap array of `nblocks` ints; an index outside the array
  is an out-of-bounds access.
* Every operation returns `Option`: `none` means that the run performed a device
  error or an out-of-bounds access, so the C program has no defined result.
* C `int` values are `Int`; `/` and `%` of C are `Int.tdiv` and `Int.tmod`.
-/

namespace Fs

/-! ## Constants -/

/-- The constant `FS_MAGIC`, an `unsigned int` literal. -/
def FS_MAGIC : Int := 0xf0f03410

def INODES_PER_BLOCK : Nat := 128
def POINTERS_PER_INODE : Nat := 5
def POINTERS_PER_BLOCK : Nat := 1024

/-- Conversion of a value to a 32-bit `int` (two's complement). -/
def toInt32 (v : Int) : Int := (v + 2 ^ 31) % 2 ^ 32 - 2 ^ 31

/-- Conversion of an `int` to `unsigned int`, as done by `magic != FS_MAGIC`. -/
def toUInt32 (v : Int) : Int := v % 2 ^ 32

/-! ## Data model -/

/-- Modelled from the spec: a disk block has the fixed size of 4096 bytes
(`DISK_BLOCK_SIZE` of `disk.h`), that is 1024 words of type `int`; only the words
`0 .. 1023` are ever accessed. -/
abbrev Block := Nat → Int

/-- The record `struct fs_superblock`. -/
structure fs_superblock where
  magic : Int
  nblocks : Int
  ninodeblocks : Int
  ninodes : Int

/-- The record `struct fs_inode`. -/
structure fs_inode where
  isvalid : Int
  size : Int
  direct : Fin 5 → Int
  indirect : Int

/-- The view `block.super`. -/
def Block.super (b : Block) : fs_superblock :=
  { magic := b 0, nblocks := b 1, ninodeblocks := b 2, ninodes := b 3 }

/-- The view `block.inode[j]`. -/
def Block.inode (b : Block) (j : Nat) : fs_inode :=
  { isvalid := b (8 * j)
    size := b (8 * j + 1)
    direct := fun k => b (8 * j + 2 + k.val)
    indirect := b (8 * j + 7) }

/-- The view `block.pointers[x]`. -/
def Block.pointers (b : Block) (x : Nat) : Int := b x

/-- Word `k` (of 8) of an inode record: `isvalid`, `size`, `direct[0..4]`, `indirect`. -/
def fs_inode.word (x : fs_inode) (k : Nat) : Int :=
  if k = 0 then x.isvalid
  else if k = 1 then x.size
  else if h : k < 7 then x.direct ⟨k - 2, by omega⟩
  else x.indirect

/-- The assignment `block.inode[j] = x`. -/
def Block.setInode (b : Block) (j : Nat) (x : fs_inode) : Block :=
  fun w => if w / 8 = j then x.word (w % 8) else b w

/-- The assignment `block.inode[j].isvalid = v`. -/
def Block.setIsvalid (b : Block) (j : Nat) (v : Int) : Block :=
  fun w => if w = 8 * j then v else b w

/-- Modelled from the spec: the block device adapter of `disk.h`
(`read_block`, `write_block`, `block_count`), an array of `size` blocks. -/
structure Disk where
  size : Nat
  blocks : Nat → Block

/-- Modelled from the spec: `disk_size()`, the block count of the device. -/
def disk_size (d : Disk) : Int := d.size

/-- Modelled from the spec: `disk_read(blocknum, data)`; a block number outside
the device is a device error. -/
def disk_read (d : Disk) (blocknum : Int) : Option Block :=
  if 0 ≤ blocknum ∧ blocknum < d.size then some (d.blocks blocknum.toNat) else none

/-- Modelled from the spec: `disk_write(blocknum, data)`; a block number outside
the device is a device error. -/
def disk_write (d : Disk) (blocknum : Int) (data : Block) : Option Disk :=
  if 0 ≤ blocknum ∧ blocknum < d.size then
    some { d with blocks := fun n => if n = blocknum.toNat then data else d.blocks n }
  else none

/-- The heap array `FREE_BLOCK_MAP` (`len = 0` stands for the null pointer). -/
structure BlockMap where
  len : Nat
  bits : Nat → Int

/-- The result of `calloc(n, sizeof(int))`. -/
def BlockMap.calloc (n : Int) : BlockMap := { len := n.toNat, bits := fun _ => 0 }

/-- The assignment `FREE_BLOCK_MAP[idx] = v`. -/
def BlockMap.set (m : BlockMap) (idx : Int) (v : Int) : Option BlockMap :=
  if 0 ≤ idx ∧ idx < m.len then
    some { m with bits := fun n => if n = idx.toNat then v else m.bits n }
  else none

/-- The global state: the device and the two globals of `fs.c`. -/
structure FS where
  disk : Disk
  FREE_BLOCK_MAP : BlockMap
  MOUNTED : Int

/-- A `for` loop whose index runs through `is` in order, over a state that may
fault: `for (i = 0; i < n; i++) body(i)` is `forEach body (List.range n)`. -/
def forEach {ι σ : Type} (body : ι → σ → Option σ) : List ι → σ → Option σ
  | [], s => some s
  | i :: is, s => (body i s).bind (forEach body is)

/-- The index range of `for (k = 0; k < POINTERS_PER_INODE; k++)`. -/
def directRange : List (Fin 5) := [0, 1, 2, 3, 4]

/-! ## Inode table -/

/-- The function `inode_load`. -/
def inode_load (d : Disk) (inumber : Int) : Option fs_inode :=
  let inode_block := Int.tdiv inumber INODES_PER_BLOCK + 1
  let inode_num := Int.tmod inumber INODES_PER_BLOCK
  (disk_read d inode_block).bind fun x =>
    if 0 ≤ inode_num then some (x.inode inode_num.toNat) else none

/-- The function `inode_save`. -/
def inode_save (d : Disk) (inumber : Int) (inode : fs_inode) : Option Disk :=
  let inode_block := Int.tdiv inumber INODES_PER_BLOCK + 1
  let inode_num := Int.tmod inumber INODES_PER_BLOCK
  (disk_read d inode_block).bind fun x =>
    if 0 ≤ inode_num then disk_write d inode_block (x.setInode inode_num.toNat inode)
    else none

/-! ## Format -/

/-- The inner loop of `fs_format`: `inode.inode[j].isvalid = 0` for `j = 0..127`. -/
def format_invalidate (inode : Block) : Block :=
  (List.range INODES_PER_BLOCK).foldl (fun b j => b.setIsvalid j 0) inode

/-- The outer loop of `fs_format`: `for (i = 1; i <= n; i++)` read block `i`,
invalidate its 128 slots, write it back. -/
def format_loop (n : Int) (d : Disk) : Option Disk :=
  forEach (fun (k : Nat) d =>
      (disk_read d ((k : Int) + 1)).bind fun inode =>
        disk_write d ((k : Int) + 1) (format_invalidate inode))
    (List.range n.toNat) d

/-- The superblock that `fs_format` writes.  The local `sblock` is not
initialised, so the words after the four header fields are whatever `junk` the
stack held. -/
def format_sblock (junk : Block) (nblocks : Int) : Block :=
  let ninodes := if Int.tdiv nblocks 10 = 0 then 1 else Int.tdiv nblocks 10
  fun w =>
    if w = 0 then toInt32 FS_MAGIC
    else if w = 1 then nblocks
    else if w = 2 then ninodes
    else if w = 3 then (INODES_PER_BLOCK : Int)
    else junk w

/-- The function `fs_format`; `junk` is the content of the uninitialised local
`sblock`. -/
def fs_format (junk : Block) (s : FS) : Option (Int × FS) :=
  if s.MOUNTED ≠ 0 then some (0, s)
  else
    (disk_read s.disk 0).bind fun block =>
    (format_loop block.super.ninodeblocks s.disk).bind fun d1 =>
    (disk_write d1 0 (format_sblock junk (disk_size d1))).bind fun d2 =>
    some (1, { s with disk := d2 })

/-! ## Mount -/

/-- The loop over `direct[k]` in `fs_mount`. -/
def mount_direct (x : fs_inode) (m : BlockMap) : Option BlockMap :=
  forEach (fun k m => if x.direct k ≠ 0 then m.set (x.direct k) 1 else some m)
    directRange m

/-- The loop over `indirect.pointers[x]` in `fs_mount`. -/
def mount_pointers (indirect : Block) (m : BlockMap) : Option BlockMap :=
  forEach (fun p m =>
      if indirect.pointers p ≠ 0 then m.set (indirect.pointers p) 1 else some m)
    (List.range POINTERS_PER_BLOCK) m

/-- The body of the loop over `j` in `fs_mount`, for the inode record `x`. -/
def mount_inode (d : Disk) (x : fs_inode) (m : BlockMap) : Option BlockMap :=
  if x.isvalid = 1 then
    (mount_direct x m).bind fun m1 =>
      if x.indirect ≠ 0 then
        (disk_read d x.indirect).bind fun indirect => mount_pointers indirect m1
      else some m1
  else some m

/-- The body of the loop over `i` in `fs_mount`, for inode block `i`. -/
def mount_block (d : Disk) (i : Int) (m : BlockMap) : Option BlockMap :=
  (disk_read d i).bind fun inode =>
  (m.set i 1).bind fun m1 =>
    forEach (fun j m => mount_inode d (inode.inode j) m) (List.range INODES_PER_BLOCK) m1

/-- The function `fs_mount`. -/
def fs_mount (s : FS) : Option (Int × FS) :=
  (disk_read s.disk 0).bind fun sblock =>
    if toUInt32 sblock.super.magic ≠ FS_MAGIC then some (0, s)
    else
      ((BlockMap.calloc sblock.super.nblocks).set 0 1).bind fun m0 =>
      (forEach (fun (k : Nat) m => mount_block s.disk ((k : Int) + 1) m)
          (List.range sblock.super.ninodeblocks.toNat) m0).bind fun m =>
      some (1, { s with FREE_BLOCK_MAP := m, MOUNTED := 1 })

/-! ## Create, delete, getsize -/

/-- The scan of `fs_create`: `n` further iterations starting at inode number `i`. -/
def create_scan (d : Disk) : Nat → Int → Option (Int × Disk)
  | 0, _ => some (0, d)
  | n + 1, i =>
    (inode_load d i).bind fun x =>
      if x.isvalid = 0 then
        (inode_save d i { x with isvalid := 1, size := 0 }).bind fun d1 => some (i, d1)
      else create_scan d n (i + 1)

/-- The function `fs_create`. -/
def fs_create (s : FS) : Option (Int × FS) :=
  if s.MOUNTED = 0 then some (0, s)
  else
    (disk_read s.disk 0).bind fun super =>
    (create_scan s.disk (super.super.ninodes - 1).toNat 1).bind fun r =>
    some (r.1, { s with disk := r.2 })

/-- The first loop of `fs_delete`: `FREE_BLOCK_MAP[x.direct[i]] = 0`. -/
def delete_direct (x : fs_inode) (m : BlockMap) : Option BlockMap :=
  forEach (fun k m => m.set (x.direct k) 0) directRange m

/-- The second loop of `fs_delete`: release every positive entry of `f`. -/
def delete_pointers (f : Block) (m : BlockMap) : Option BlockMap :=
  forEach (fun p m => if f.pointers p > 0 then m.set (f.pointers p) 0 else some m)
    (List.range POINTERS_PER_BLOCK) m

/-- The function `fs_delete`. -/
def fs_delete (s : FS) (inumber : Int) : Option (Int × FS) :=
  if s.MOUNTED = 0 then some (0, s)
  else
    (inode_load s.disk inumber).bind fun x0 =>
    let x : fs_inode := { x0 with isvalid := 0, size := 0 }
    (delete_direct x s.FREE_BLOCK_MAP).bind fun m1 =>
    (disk_read s.disk x.indirect).bind fun f =>
    (delete_pointers f m1).bind fun m2 =>
    (inode_save s.disk inumber x).bind fun d =>
    some (1, { s with disk := d, FREE_BLOCK_MAP := m2 })

/-- The function `fs_getsize`. -/
def fs_getsize (s : FS) (inumber : Int) : Option Int :=
  if s.MOUNTED = 0 then some (-1)
  else
    (inode_load s.disk inumber).bind fun x =>
      if x.isvalid = 0 then some (-1) else some x.size

/-! ## Read and write -/

/-- The function `fs_read`: the return value, the caller's buffer `data` after
the call, and the state. -/
def fs_read (s : FS) (_inumber : Int) (data : List Nat) (_length _offset : Int) :
    Int × List Nat × FS :=
  (0, data, s)

/-- The function `fs_write`: the return value and the state. -/
def fs_write (s : FS) (_inumber : Int) (_data : List Nat) (_length _offset : Int) :
    Int × FS :=
  (0, s)

/-- The bytes a caller obtains from `fs_read`: the first `ret` bytes of its buffer. -/
def bytesRead (r : Int × List Nat × FS) : List Nat := r.2.1.take r.1.toNat

/-! ## Sample volumes -/

/-- A block given by its first words; the remaining words are zero. -/
def blockOf (ws : List Int) : Block := fun w => ws.getD w 0

/-- A device given by its first blocks; the remaining blocks are zero. -/
def diskOf (size : Nat) (bs : List Block) : Disk :=
  { size := size, blocks := fun n => bs.getD n (fun _ => 0) }

/-- A device of `n` blocks, all zero. -/
def zeroDisk (n : Nat) : Disk := diskOf n []

/-- The initial state of the program on a device: no map, not mounted. -/
def boot (d : Disk) : FS :=
  { disk := d, FREE_BLOCK_MAP := { len := 0, bits := fun _ => 0 }, MOUNTED := 0 }

/-- The run `format; mount; create` on a zeroed device of 20 blocks. -/
def freshVolume : Option FS :=
  (fs_format (fun _ => 0) (boot (zeroDisk 20))).bind fun r =>
    (fs_mount r.2).bind fun r => (fs_create r.2).map Prod.snd

/-- The scenario of the specification up to its create: `format; mount; create`
on a zeroed device of 100 blocks, with the value that create returns. -/
def scenarioVolume : Option (Int × FS) :=
  (fs_format (fun _ => 0) (boot (zeroDisk 100))).bind fun r =>
    (fs_mount r.2).bind fun r => fs_create r.2

/-- An 8-block image: inode 1 is valid, has no direct block and the (empty)
indirect block 5. -/
def imageA : Disk :=
  diskOf 8
    [blockOf [toInt32 FS_MAGIC, 8, 1, 128],
     blockOf [0, 0, 0, 0, 0, 0, 0, 0,
              1, 0, 0, 0, 0, 0, 0, 5]]

/-- A 10-block image: inode 1 is a valid file with direct blocks 2..6 and
indirect block 7, which lists block 8; inode 2 is valid and names block 7 as its
first direct block. -/
def imageB : Disk :=
  diskOf 10
    [blockOf [toInt32 FS_MAGIC, 10, 1, 128],
     blockOf [0, 0, 0, 0, 0, 0, 0, 0,
              1, 24576, 2, 3, 4, 5, 6, 7,
              1, 4096, 7, 0, 0, 0, 0, 0],
     blockOf [], blockOf [], blockOf [], blockOf [], blockOf [],
     blockOf [8]]

/-- A 10-block image: inode 1 is invalid but still holds size 5000, direct block 6
and indirect block 5 (empty); inode 2 is valid and owns block 6. -/
def imageC : Disk :=
  diskOf 10
    [blockOf [toInt32 FS_MAGIC, 10, 1, 128],
     blockOf [0, 0, 0, 0, 0, 0, 0, 0,
              0, 5000, 6, 0, 0, 0, 0, 5,
              1, 100, 6, 0, 0, 0, 0, 0]]

/-- A never-formatted 20-block device: block 0 is zero, and block 1 holds a word
pattern in which inode slot 1 reads as valid. -/
def rawDevice : Disk :=
  diskOf 20
    [blockOf [],
     blockOf [0, 0, 0, 0, 0, 0, 0, 0,
              1, 0, 0, 0, 0, 0, 0, 0]]

/-! ## Specification vocabulary -/

/-- The map `m1` is `m` with the entries selected by `S` set to `v`. -/
def Marks (v : Int) (S : Nat → Prop) (m m1 : BlockMap) : Prop :=
  m1.len = m.len ∧ ∀ n, (S n → m1.bits n = v) ∧ (¬ S n → m1.bits n = m.bits n)

/-- The field `ninodes` of the superblock stored in block 0. -/
def FS.ninodes (s : FS) : Int := (s.disk.blocks 0).super.ninodes

/-- Inode slot `i` is in use: its record can be loaded and `isvalid` is not 0
(the test of `fs_create` and `fs_getsize`). -/
def FS.used (s : FS) (i : Int) : Prop :=
  ∃ x, inode_load s.disk i = some x ∧ x.isvalid ≠ 0

/-- Some inode slot in `1 .. ninodes - 1` is invalid. -/
def FS.hasFree (s : FS) : Prop :=
  ∃ i : Int, 1 ≤ i ∧ i < s.ninodes ∧ ∃ x, inode_load s.disk i = some x ∧ x.isvalid = 0

/-- The device holds block 0 and the block of every inode slot `1 .. ninodes - 1`. -/
def FS.tableOnDevice (s : FS) : Prop :=
  0 < s.disk.size ∧ (1 < s.ninodes → Int.tdiv (s.ninodes - 1) 128 + 1 < s.disk.size)

/-- The state after `k` consecutive calls of `fs_create`. -/
def afterCreates (s : FS) : Nat → Option FS
  | 0 => some s
  | k + 1 => (afterCreates s k).bind fun sk => (fs_create sk).map Prod.snd

/-- Call number `k` (from 0) of a run of consecutive `fs_create` calls: the state
in which it is made and the value it returns. -/
def nthCreate (s : FS) (k : Nat) : Option (FS × Int) :=
  (afterCreates s k).bind fun sk => (fs_create sk).map fun r => (sk, r.1)

/-- The state after a successful `fs_mount` on a device (the boot state itself if
the mount does not return). -/
def mounted (d : Disk) : FS := ((fs_mount (boot d)).map Prod.snd).getD (boot d)

/-- The state an operation leaves, given its optional result (the state `s` itself
if the operation does not return). -/
def stateAfter (s : FS) (o : Option (Int × FS)) : FS := (o.map Prod.snd).getD s

/-- The superblock stored in block 0 of a device. -/
def Disk.super (d : Disk) : fs_superblock := (d.blocks 0).super

/-- Block `b` is named by a direct pointer of `x` that is not 0. -/
def directRef (x : fs_inode) (b : Nat) : Prop :=
  ∃ k : Fin 5, x.direct k ≠ 0 ∧ (b : Int) = x.direct k

/-- Block `b` is a non-zero entry of the indirect block of `x`, where `x` has one
(`indirect ≠ 0`). -/
def indirectRef (d : Disk) (x : fs_inode) (b : Nat) : Prop :=
  x.indirect ≠ 0 ∧
    ∃ p, p < 1024 ∧ (d.blocks x.indirect.toNat).pointers p ≠ 0 ∧
      (b : Int) = (d.blocks x.indirect.toNat).pointers p

/-- The record `x` is an inode of the table that `fs_mount` treats as valid: it
sits in a slot of one of the blocks `1 .. ninodeblocks` and `isvalid == 1`. -/
def validInode (d : Disk) (x : fs_inode) : Prop :=
  ∃ i j : Nat, 1 ≤ i ∧ (i : Int) ≤ d.super.ninodeblocks ∧ j < 128 ∧
    x = (d.blocks i).inode j ∧ x.isvalid = 1

/-- Every direct pointer, the indirect pointer and, if there is an indirect block,
every entry of it is in `[0, nblocks)`. -/
def inodeInRange (d : Disk) (x : fs_inode) : Prop :=
  (∀ k, 0 ≤ x.direct k ∧ x.direct k < d.super.nblocks) ∧
  (0 ≤ x.indirect ∧ x.indirect < d.super.nblocks) ∧
  (x.indirect ≠ 0 → ∀ p, p < 1024 →
    0 ≤ (d.blocks x.indirect.toNat).pointers p ∧
      (d.blocks x.indirect.toNat).pointers p < d.super.nblocks)

/-- The test `p 0 && p 1 && ... && p (n - 1)`, evaluated from `n - 1` down. -/
def allBelow : Nat → (Nat → Bool) → Bool
  | 0, _ => true
  | n + 1, p => p n && allBelow n p

instance (d : Disk) (x : fs_inode) : Decidable (inodeInRange d x) :=
  decidable_of_iff
    ((∀ k, 0 ≤ x.direct k ∧ x.direct k < d.super.nblocks) ∧
      (0 ≤ x.indirect ∧ x.indirect < d.super.nblocks) ∧
      (x.indirect ≠ 0 → allBelow 1024 (fun p =>
        decide (0 ≤ (d.blocks x.indirect.toNat).pointers p ∧
          (d.blocks x.indirect.toNat).pointers p < d.super.nblocks)) = true))
    (by
      have key : ∀ (n : Nat) (p : Nat → Bool),
          allBelow n p = true ↔ ∀ i, i < n → p i = true := by
        intro n p
        induction n with
        | zero => simp [allBelow]
        | succ n ih =>
          simp only [allBelow, Bool.and_eq_true, ih]
          constructor
          · rintro ⟨h1, h2⟩ i hi
            by_cases hin : i = n
            · rw [hin]
              exact h1
            · exact h2 i (by omega)
          · intro h
            exact ⟨h n (by omega), fun i hi => h i (by omega)⟩
      simp only [inodeInRange, key, decide_eq_true_eq])

/-- A formatted image all of whose pointers are block numbers of the volume: the
magic is right, the inode table lies inside the `nblocks` blocks of the volume,
which lie on the device, and every valid inode (`isvalid == 1`, in a slot of the
blocks `1 .. ninodeblocks`) has its pointers in range. -/
def pointersInRange (d : Disk) : Prop :=
  toUInt32 d.super.magic = FS_MAGIC ∧
  1 ≤ d.super.nblocks ∧ d.super.nblocks ≤ d.size ∧ d.super.ninodeblocks < d.super.nblocks ∧
  ∀ i, i < d.size → ∀ j, j < 128 → 1 ≤ i → (i : Int) ≤ d.super.ninodeblocks →
    ((d.blocks i).inode j).isvalid = 1 → inodeInRange d ((d.blocks i).inode j)

instance (d : Disk) : Decidable (pointersInRange d) := by
  delta pointersInRange
  infer_instance

/-- The blocks that `fs_mount` marks in use: block 0, the inode-table blocks
`1 .. ninodeblocks`, the non-zero direct pointers of the valid inodes and the
non-zero entries of their indirect blocks. -/
def mountInUse (d : Disk) (b : Nat) : Prop :=
  b = 0 ∨ (1 ≤ b ∧ (b : Int) ≤ d.super.ninodeblocks) ∨
    ∃ x, validInode d x ∧ (directRef x b ∨ indirectRef d x b)

/-- The accesses that `fs_delete` makes for the inode record `x` stay in bounds:
every direct pointer indexes the map, the block named by `indirect` is on the
device, and every positive entry of that block indexes the map. -/
def deleteInBounds (s : FS) (x : fs_inode) : Prop :=
  (∀ k, 0 ≤ x.direct k ∧ x.direct k < s.FREE_BLOCK_MAP.len) ∧
  (0 ≤ x.indirect ∧ x.indirect < s.disk.size) ∧
  (∀ p, p < 1024 → 0 < (s.disk.blocks x.indirect.toNat).pointers p →
    (s.disk.blocks x.indirect.toNat).pointers p < s.FREE_BLOCK_MAP.len)

instance (s : FS) (x : fs_inode) : Decidable (deleteInBounds s x) :=
  decidable_of_iff
    ((∀ k, 0 ≤ x.direct k ∧ x.direct k < s.FREE_BLOCK_MAP.len) ∧
      (0 ≤ x.indirect ∧ x.indirect < s.disk.size) ∧
      allBelow 1024 (fun p =>
        decide (0 < (s.disk.blocks x.indirect.toNat).pointers p →
          (s.disk.blocks x.indirect.toNat).pointers p < s.FREE_BLOCK_MAP.len)) = true)
    (by
      have key : ∀ (n : Nat) (p : Nat → Bool),
          allBelow n p = true ↔ ∀ i, i < n → p i = true := by
        intro n p
        induction n with
        | zero => simp [allBelow]
        | succ n ih =>
          simp only [allBelow, Bool.and_eq_true, ih]
          constructor
          · rintro ⟨h1, h2⟩ i hi
            by_cases hin : i = n
            · rw [hin]
              exact h1
            · exact h2 i (by omega)
          · intro h
            exact ⟨h n (by omega), fun i hi => h i (by omega)⟩
      simp only [deleteInBounds, key, decide_eq_true_eq])

/-- The inode record `x` after `x.isvalid = 0; x.size = 0;`. -/
def fs_inode.cleared (x : fs_inode) : fs_inode := { x with isvalid := 0, size := 0 }

/-- The record stored in inode slot `i` (the zero record if the slot cannot be
loaded). -/
def inodeAt (d : Disk) (i : Int) : fs_inode :=
  (inode_load d i).getD { isvalid := 0, size := 0, direct := fun _ => 0, indirect := 0 }

/-! # Theorems -/

/-! ## Basic facts about the device and the map -/

theorem disk_read_eq_some {d : Disk} {b : Int} {blk : Block} :
    disk_read d b = some blk ↔ (0 ≤ b ∧ b < d.size) ∧ blk = d.blocks b.toNat := by
  unfold disk_read
  split_ifs with h
  · simp [h, eq_comm]
  · simp [h]

theorem disk_read_of_lt {d : Disk} {b : Int} (h0 : 0 ≤ b) (h1 : b < d.size) :
    disk_read d b = some (d.blocks b.toNat) := by
  simp [disk_read, h0, h1]

theorem disk_write_eq_some {d d1 : Disk} {b : Int} {blk : Block} :
    disk_write d b blk = some d1 ↔
      (0 ≤ b ∧ b < d.size) ∧
        d1 = { d with blocks := fun n => if n = b.toNat then blk else d.blocks n } := by
  unfold disk_write
  split_ifs with h
  · simp [h, eq_comm]
  · simp [h]

theorem forEach_append {ι σ : Type} (body : ι → σ → Option σ) (l1 l2 : List ι) (s : σ) :
    forEach body (l1 ++ l2) s = (forEach body l1 s).bind (forEach body l2) := by
  induction l1 generalizing s with
  | nil => simp [forEach]
  | cons i l1 ih =>
    simp only [List.cons_append, forEach]
    cases body i s with
    | none => simp
    | some s1 => simpa using ih s1

theorem Marks.none (v : Int) (m : BlockMap) : Marks v (fun _ => False) m m :=
  ⟨rfl, fun _ => ⟨fun h => h.elim, fun _ => rfl⟩⟩

theorem Marks.congr {v : Int} {S T : Nat → Prop} {m m1 : BlockMap}
    (h : Marks v S m m1) (hST : ∀ n, S n ↔ T n) : Marks v T m m1 :=
  ⟨h.1, fun n => ⟨fun hn => (h.2 n).1 ((hST n).2 hn),
    fun hn => (h.2 n).2 (fun hs => hn ((hST n).1 hs))⟩⟩

theorem Marks.trans {v : Int} {S T : Nat → Prop} {m m1 m2 : BlockMap}
    (h1 : Marks v S m m1) (h2 : Marks v T m1 m2) : Marks v (fun n => S n ∨ T n) m m2 := by
  refine ⟨h2.1.trans h1.1, fun n => ⟨?_, ?_⟩⟩
  · intro hn
    by_cases hT : T n
    · exact (h2.2 n).1 hT
    · rw [(h2.2 n).2 hT]
      exact (h1.2 n).1 (hn.resolve_right hT)
  · intro hn
    rw [(h2.2 n).2 (fun hT => hn (Or.inr hT)), (h1.2 n).2 (fun hS => hn (Or.inl hS))]

theorem BlockMap.set_marks (m : BlockMap) (idx v : Int) (h0 : 0 ≤ idx) (h1 : idx < m.len) :
    ∃ m1, m.set idx v = some m1 ∧ Marks v (fun n => (n : Int) = idx) m m1 := by
  refine ⟨{ m with bits := fun n => if n = idx.toNat then v else m.bits n },
    by simp [BlockMap.set, h0, h1], rfl, fun n => ⟨?_, ?_⟩⟩
  · intro hn
    have : n = idx.toNat := by omega
    simp [this]
  · intro hn
    have : n ≠ idx.toNat := by omega
    simp [this]

theorem BlockMap.set_eq_some {m m1 : BlockMap} {idx v : Int} (h : m.set idx v = some m1) :
    0 ≤ idx ∧ idx < m.len := by
  unfold BlockMap.set at h
  split_ifs at h with hc
  exact hc

/-- A loop whose every iteration marks a set marks the union of the sets. -/
theorem forEach_marks {ι : Type} (v : Int) (L : Nat) (body : ι → BlockMap → Option BlockMap)
    (S : ι → Nat → Prop) (l : List ι)
    (hbody : ∀ i ∈ l, ∀ m : BlockMap, m.len = L → ∃ m1, body i m = some m1 ∧ Marks v (S i) m m1)
    (m : BlockMap) (hm : m.len = L) :
    ∃ m1, forEach body l m = some m1 ∧ Marks v (fun n => ∃ i ∈ l, S i n) m m1 := by
  induction l generalizing m with
  | nil => exact ⟨m, rfl, (Marks.none v m).congr (by simp)⟩
  | cons i l ih =>
    obtain ⟨m1, e1, k1⟩ := hbody i (List.mem_cons_self _ _) m hm
    obtain ⟨m2, e2, k2⟩ :=
      ih (fun i hi => hbody i (List.mem_cons_of_mem _ hi)) m1 (k1.1.trans hm)
    refine ⟨m2, by simp [forEach, e1, e2], (k1.trans k2).congr ?_⟩
    intro n
    simp

/-! ## The inode table -/

theorem Block.inode_setInode_same (b : Block) (j : Nat) (x : fs_inode) :
    (b.setInode j x).inode j = x := by
  cases x with
  | mk v sz dir ind =>
    have h0 : 8 * j / 8 = j := by omega
    have h1 : (8 * j + 1) / 8 = j := by omega
    have h7 : (8 * j + 7) / 8 = j := by omega
    have e0 : 8 * j % 8 = 0 := by omega
    have e1 : (8 * j + 1) % 8 = 1 := by omega
    have e7 : (8 * j + 7) % 8 = 7 := by omega
    simp only [Block.inode, Block.setInode, fs_inode.word, h0, h1, h7, e0, e1, e7]
    simp only [fs_inode.mk.injEq]
    refine ⟨by simp, by simp, ?_, by simp⟩
    funext k
    have hk := k.isLt
    have hd : (8 * j + 2 + k.val) / 8 = j := by omega
    have hm : (8 * j + 2 + k.val) % 8 = 2 + k.val := by omega
    have n0 : ¬ (2 + k.val = 0) := by omega
    have n1 : ¬ (2 + k.val = 1) := by omega
    have l7 : 2 + k.val < 7 := by omega
    simp only [hd, hm, n0, n1, l7, if_true, if_false, dite_true]
    congr 1
    apply Fin.ext
    simp

theorem Block.inode_setInode_other (b : Block) (j j1 : Nat) (x : fs_inode) (h : j1 ≠ j) :
    (b.setInode j x).inode j1 = b.inode j1 := by
  have h0 : ¬ (8 * j1 / 8 = j) := by omega
  have h1 : ¬ ((8 * j1 + 1) / 8 = j) := by omega
  have h7 : ¬ ((8 * j1 + 7) / 8 = j) := by omega
  simp only [Block.inode, Block.setInode, h0, h1, h7, if_false, fs_inode.mk.injEq, true_and]
  refine ⟨?_, trivial⟩
  funext k
  have hk := k.isLt
  have hd : ¬ ((8 * j1 + 2 + k.val) / 8 = j) := by omega
  simp [hd]

/-- Word `8*j + k` of a block is word `k` of its inode record `j`. -/
theorem Block.inode_word (b : Block) (j k : Nat) (hk : k < 8) :
    (b.inode j).word k = b (8 * j + k) := by
  unfold fs_inode.word Block.inode
  interval_cases k <;> simp

/-- For a non-negative inode number, `inode_load` reads slot `i % 128` of block
`i / 128 + 1`. -/
theorem inode_load_nonneg (d : Disk) (i : Int) (h0 : 0 ≤ i) :
    inode_load d i = (disk_read d (i / 128 + 1)).map fun x => x.inode (i % 128).toNat := by
  have e1 : Int.tdiv i 128 = i / 128 := Int.tdiv_eq_ediv h0 (by omega)
  have e2 : Int.tmod i 128 = i % 128 := Int.tmod_eq_emod h0 (by omega)
  have e3 : 0 ≤ i % 128 := Int.emod_nonneg _ (by omega)
  unfold inode_load
  simp only [INODES_PER_BLOCK, Nat.cast_ofNat, e1, e2, e3, if_true]
  cases disk_read d (i / 128 + 1) <;> rfl

/-- For a non-negative inode number, `inode_save` rewrites slot `i % 128` of block
`i / 128 + 1`. -/
theorem inode_save_nonneg (d : Disk) (i : Int) (x : fs_inode) (h0 : 0 ≤ i) :
    inode_save d i x =
      (disk_read d (i / 128 + 1)).bind fun b =>
        disk_write d (i / 128 + 1) (b.setInode (i % 128).toNat x) := by
  have e1 : Int.tdiv i 128 = i / 128 := Int.tdiv_eq_ediv h0 (by omega)
  have e2 : Int.tmod i 128 = i % 128 := Int.tmod_eq_emod h0 (by omega)
  have e3 : 0 ≤ i % 128 := Int.emod_nonneg _ (by omega)
  unfold inode_save
  simp only [INODES_PER_BLOCK, Nat.cast_ofNat, e1, e2, e3, if_true]

/-- A save succeeds exactly when the load of the same inode number does. -/
theorem inode_save_of_load {d : Disk} {i : Int} {x0 : fs_inode} (x : fs_inode) (h0 : 0 ≤ i)
    (h : inode_load d i = some x0) :
    ∃ d1, inode_save d i x = some d1 ∧ d1.size = d.size ∧
      d1.blocks = fun n => if n = (i / 128 + 1).toNat
        then (d.blocks (i / 128 + 1).toNat).setInode (i % 128).toNat x else d.blocks n := by
  rw [inode_load_nonneg d i h0] at h
  rw [inode_save_nonneg d i x h0]
  cases hr : disk_read d (i / 128 + 1) with
  | none => simp [hr] at h
  | some b =>
    obtain ⟨hb, rfl⟩ := disk_read_eq_some.1 hr
    exact ⟨{ d with blocks := fun n => if n = (i / 128 + 1).toNat
        then (d.blocks (i / 128 + 1).toNat).setInode (i % 128).toNat x else d.blocks n },
      by simp [disk_write, hb], rfl, rfl⟩

/-- After a save, a load of the same number yields the saved record, and a load of
any other non-negative number yields what it yielded before. -/
theorem inode_load_after_save {d d1 : Disk} {i : Int} {x : fs_inode} (h0 : 0 ≤ i)
    (h : inode_save d i x = some d1) (j : Int) (hj : 0 ≤ j) :
    inode_load d1 j = if j = i then some x else inode_load d j := by
  rw [inode_save_nonneg d i x h0] at h
  cases hr : disk_read d (i / 128 + 1) with
  | none => simp [hr] at h
  | some b =>
    obtain ⟨hb, rfl⟩ := disk_read_eq_some.1 hr
    rw [hr] at h
    obtain ⟨-, rfl⟩ := disk_write_eq_some.1 h
    rw [inode_load_nonneg _ j hj, inode_load_nonneg _ j hj]
    by_cases hji : j = i
    · subst hji
      simp [disk_read, hb, Block.inode_setInode_same]
    · simp only [hji, if_false]
      by_cases hblk : j / 128 = i / 128
      · have hslot : (j % 128).toNat ≠ (i % 128).toNat := by omega
        simp [disk_read, hblk, hb, Block.inode_setInode_other _ _ _ _ hslot]
      · unfold disk_read
        by_cases hr : 0 ≤ j / 128 + 1 ∧ j / 128 + 1 < (d.size : Int)
        · have hne : (j / 128 + 1).toNat ≠ (i / 128 + 1).toNat := by omega
          simp [hr, hne]
        · simp [hr]

/-! ## Read and write (C1) -/

set_option maxRecDepth 100000 in
/-- C1, counterexample: on the volume obtained by `format; mount; create` on a
20-block device, inode 1 is valid with size 0, yet writing the one-byte buffer
`[65]` at offset 0 returns 0 and the following read of 1 byte at offset 0 delivers
no byte at all, not `[65]`. -/
theorem fs_write_read_loses_bytes :
    freshVolume.map (fun s =>
        (s.MOUNTED, fs_getsize s 1, (fs_write s 1 [65] 1 0).1,
          bytesRead (fs_read (fs_write s 1 [65] 1 0).2 1 [0] 1 0)))
      = some (1, some 0, 0, []) := by
  decide

/-- C1, amended: for every state, inode number, buffer `b` and offset, `fs_write`
returns 0 and leaves the state as it was, the following `fs_read` returns 0, leaves
the caller's buffer and the state as they were, and so the bytes read are equal to
`b` exactly when `b` is empty. -/
theorem fs_write_read_stub (s : FS) (i : Int) (b buf : List Nat) (o : Int) :
    fs_write s i b b.length o = (0, s) ∧
      fs_read (fs_write s i b b.length o).2 i buf b.length o = (0, buf, s) ∧
      (bytesRead (fs_read (fs_write s i b b.length o).2 i buf b.length o) = b ↔ b = []) := by
  refine ⟨rfl, rfl, ?_⟩
  simp [bytesRead, fs_read, eq_comm]

/-! ## Block 0 and the inode table in the map (C2) -/

set_option maxRecDepth 100000 in
/-- C2, the code at the failing input: mounting `imageA` succeeds and marks block 0
in use; `fs_delete(1)` then returns 1 and leaves block 0 marked free, because the
loop over `direct` clears `FREE_BLOCK_MAP[0]` for every direct pointer that is 0. -/
theorem fs_delete_frees_block_zero :
    ((fs_mount (boot imageA)).bind fun r =>
        (fs_delete r.2 1).map fun q =>
          (r.1, r.2.FREE_BLOCK_MAP.bits 0, q.1, q.2.FREE_BLOCK_MAP.bits 0))
      = some (1, 1, 1, 0) := by
  decide

/-! ## The superblock written by format (C5) and the slots it invalidates (C9) -/

set_option maxRecDepth 100000 in
/-- C5, the code at the failing input: on a 20-block device `fs_format` returns 1
and writes magic `FS_MAGIC`, `nblocks = 20`, `ninodeblocks = 2` and
`ninodes = 128`, which is not `ninodeblocks * 128 = 256`. -/
theorem fs_format_ninodes_constant :
    (fs_format (fun _ => 0) (boot (zeroDisk 20))).map (fun r =>
        let sb := (r.2.disk.blocks 0).super
        (r.1, toUInt32 sb.magic, sb.nblocks, sb.ninodeblocks, sb.ninodes,
          decide (sb.ninodes = sb.ninodeblocks * 128)))
      = some (1, FS_MAGIC, 20, 2, 128, false) := by
  decide

set_option maxRecDepth 100000 in
/-- C9, the code at the failing input: on the never-formatted `rawDevice`, whose
block 0 is zero, `fs_format` returns 1 and writes `ninodeblocks = 2`, but its
invalidation loop runs over the old count 0, so inode slot 1 of block 1 still
reads as valid. -/
theorem fs_format_keeps_stale_inode :
    (fs_format (fun _ => 0) (boot rawDevice)).map (fun r =>
        (r.1, (r.2.disk.blocks 0).super.ninodeblocks, ((r.2.disk.blocks 1).inode 1).isvalid))
      = some (1, 2, 1) := by
  decide

/-! ## Create (C3, C10) -/

theorem inode_load_of_block {d : Disk} {j : Int} (h0 : 0 ≤ j) (hb : j / 128 + 1 < d.size) :
    inode_load d j = some ((d.blocks (j / 128 + 1).toNat).inode (j % 128).toNat) := by
  rw [inode_load_nonneg d j h0, disk_read_of_lt (by omega) hb]
  rfl

/-- The scan of `fs_create` over the slots `i .. i + n - 1`, all of them on the
device: either every slot is in use, the result is 0 and the disk is untouched, or
the result is the first slot `r` whose `isvalid` is 0 and the disk is the one
`inode_save` produces for that slot with `isvalid = 1`, `size = 0`. -/
theorem create_scan_spec (d : Disk) (n : Nat) (i : Int) (hi : 0 ≤ i)
    (hdev : ∀ j : Int, i ≤ j → j < i + n → j / 128 + 1 < d.size) :
    ∃ r d1, create_scan d n i = some (r, d1) ∧
      ((r = 0 ∧ d1 = d ∧
          ∀ j : Int, i ≤ j → j < i + n → ∃ x, inode_load d j = some x ∧ x.isvalid ≠ 0) ∨
        (i ≤ r ∧ r < i + n ∧
          (∀ j : Int, i ≤ j → j < r → ∃ x, inode_load d j = some x ∧ x.isvalid ≠ 0) ∧
          ∃ x, inode_load d r = some x ∧ x.isvalid = 0 ∧
            inode_save d r { x with isvalid := 1, size := 0 } = some d1)) := by
  induction n generalizing i with
  | zero =>
    refine ⟨0, d, rfl, Or.inl ⟨rfl, rfl, ?_⟩⟩
    intro j h1 h2
    simp at h2
    omega
  | succ n ih =>
    have hli := inode_load_of_block hi (hdev i le_rfl (by push_cast; omega))
    by_cases hv : ((d.blocks (i / 128 + 1).toNat).inode (i % 128).toNat).isvalid = 0
    · obtain ⟨d1, hs, -, -⟩ := inode_save_of_load
        { (d.blocks (i / 128 + 1).toNat).inode (i % 128).toNat with isvalid := 1, size := 0 }
        hi hli
      refine ⟨i, d1, ?_, Or.inr ⟨le_rfl, by push_cast; omega, ?_, _, hli, hv, hs⟩⟩
      · simp [create_scan, hli, hv, hs]
      · intro j h1 h2
        omega
    · obtain ⟨r, d1, hr, hcase⟩ := ih (i + 1) (by omega)
        (fun j h1 h2 => hdev j (by omega) (by push_cast; omega))
      refine ⟨r, d1, ?_, ?_⟩
      · simp [create_scan, hli, hv, hr]
      · rcases hcase with ⟨h0, hd, hall⟩ | ⟨h1, h2, hall, hx⟩
        · refine Or.inl ⟨h0, hd, ?_⟩
          intro j h1 h2
          by_cases hji : j = i
          · subst hji
            exact ⟨_, hli, hv⟩
          · exact hall j (by omega) (by push_cast at h2; omega)
        · refine Or.inr ⟨by omega, by push_cast; omega, ?_, hx⟩
          intro j h3 h4
          by_cases hji : j = i
          · subst hji
            exact ⟨_, hli, hv⟩
          · exact hall j (by omega) h4

/-- One call of `fs_create` on a mounted volume whose inode table is on the
device.  It returns; the map, the flag, the device size and `ninodes` are kept.
Either the table is full, the result is 0 and the state is unchanged, or the result
is the least invalid slot `r` of `1 .. ninodes - 1`, rewritten by `inode_save` with
`isvalid = 1` and `size = 0`. -/
theorem fs_create_step (s : FS) (hm : s.MOUNTED ≠ 0) (ht : s.tableOnDevice) :
    ∃ r s1, fs_create s = some (r, s1) ∧ s1.MOUNTED = s.MOUNTED ∧
      s1.FREE_BLOCK_MAP = s.FREE_BLOCK_MAP ∧ s1.disk.size = s.disk.size ∧
      s1.ninodes = s.ninodes ∧
      ((r = 0 ∧ s1 = s ∧ ¬ s.hasFree) ∨
        (1 ≤ r ∧ r < s.ninodes ∧ s.hasFree ∧ (∀ j : Int, 1 ≤ j → j < r → s.used j) ∧
          ∃ x, inode_load s.disk r = some x ∧ x.isvalid = 0 ∧
            inode_save s.disk r { x with isvalid := 1, size := 0 } = some s1.disk)) := by
  obtain ⟨hsz, htab⟩ := ht
  have hread : disk_read s.disk 0 = some (s.disk.blocks 0) :=
    disk_read_of_lt le_rfl (by exact_mod_cast hsz)
  have hdev : ∀ j : Int, 1 ≤ j → j < 1 + ((s.ninodes - 1).toNat : Int) →
      j / 128 + 1 < s.disk.size := by
    intro j h1 h2
    have h3 : 1 < s.ninodes := by omega
    have h4 := htab h3
    rw [Int.tdiv_eq_ediv (by omega) (by omega)] at h4
    omega
  obtain ⟨r, d1, hscan, hcase⟩ :=
    create_scan_spec s.disk (s.ninodes - 1).toNat 1 (by omega) hdev
  have hcreate : fs_create s = some (r, { s with disk := d1 }) := by
    unfold fs_create
    simp only [hm, if_false, hread]
    show (create_scan s.disk (s.ninodes - 1).toNat 1).bind _ = _
    rw [hscan]
    rfl
  rcases hcase with ⟨h0, hd, hall⟩ | ⟨h1, h2, hall, x, hx, hv, hs⟩
  · subst hd
    refine ⟨r, s, hcreate, rfl, rfl, rfl, rfl, Or.inl ⟨h0, rfl, ?_⟩⟩
    rintro ⟨i, hi1, hi2, y, hy, hy0⟩
    obtain ⟨z, hz, hz0⟩ := hall i hi1 (by omega)
    rw [hy] at hz
    cases hz
    exact hz0 hy0
  · obtain ⟨d2, hs2, hsize, hblocks⟩ :=
      inode_save_of_load { x with isvalid := 1, size := 0 } (by omega : (0 : Int) ≤ r) hx
    rw [hs] at hs2
    cases hs2
    have hnin : (d1.blocks 0).super.ninodes = s.ninodes := by
      have hne : ¬ (0 = (r / 128 + 1).toNat) := by omega
      rw [hblocks]
      simp only [hne, if_false]
      rfl
    refine ⟨r, { s with disk := d1 }, hcreate, rfl, rfl, hsize, hnin,
      Or.inr ⟨h1, by omega, ⟨r, h1, by omega, x, hx, hv⟩, hall, x, hx, hv, hs⟩⟩

/-- A slot in use stays in use over a call of `fs_create`, and a non-zero result
names a slot that was invalid before the call and is in use after it. -/
theorem fs_create_used (s s1 : FS) (r : Int) (hm : s.MOUNTED ≠ 0) (ht : s.tableOnDevice)
    (h : fs_create s = some (r, s1)) :
    (∀ j : Int, 0 ≤ j → s.used j → s1.used j) ∧ (r ≠ 0 → ¬ s.used r ∧ s1.used r) := by
  obtain ⟨r1, s2, h2, -, -, -, -, hcase⟩ := fs_create_step s hm ht
  rw [h] at h2
  cases h2
  rcases hcase with ⟨h0, hs, -⟩ | ⟨h1, -, -, -, x, hx, hv, hs⟩
  · subst hs
    exact ⟨fun _ _ hu => hu, fun hr => (hr h0).elim⟩
  · have hload := inode_load_after_save (by omega : (0 : Int) ≤ r) hs
    constructor
    · rintro j hj ⟨y, hy, hy0⟩
      by_cases hjr : j = r
      · subst hjr
        exact ⟨_, by rw [hload j hj, if_pos rfl], by simp⟩
      · exact ⟨y, by rw [hload j hj, if_neg hjr, hy], hy0⟩
    · intro _
      constructor
      · rintro ⟨y, hy, hy0⟩
        rw [hx] at hy
        cases hy
        exact hy0 hv
      · exact ⟨_, by rw [hload r (by omega), if_pos rfl], by simp⟩

/-- The state after `k` creates exists, is mounted with its table on the device;
every non-zero result of an earlier call names a slot in use in it, and if the
table was full at an earlier call it is full in it. -/
theorem afterCreates_inv (s : FS) (hm : s.MOUNTED ≠ 0) (ht : s.tableOnDevice) (k : Nat) :
    ∃ sk, afterCreates s k = some sk ∧ sk.MOUNTED ≠ 0 ∧ sk.tableOnDevice ∧
      (∀ j, j < k → ∀ sj rj, nthCreate s j = some (sj, rj) → rj ≠ 0 → 0 ≤ rj ∧ sk.used rj) ∧
      (∀ j, j < k → ∀ sj rj, nthCreate s j = some (sj, rj) → ¬ sj.hasFree → ¬ sk.hasFree) := by
  induction k with
  | zero => exact ⟨s, rfl, hm, ht, fun j hj => absurd hj (by omega), fun j hj => absurd hj (by omega)⟩
  | succ k ih =>
    obtain ⟨sk, hsk, hmk, htk, hused, hfull⟩ := ih
    obtain ⟨r, s1, hc, hm1, -, hsize, hnin, hcase⟩ := fs_create_step sk hmk htk
    have hmono := fs_create_used sk s1 r hmk htk hc
    have ht1 : s1.tableOnDevice := by
      unfold FS.tableOnDevice at htk ⊢
      rw [hsize, hnin]
      exact htk
    have hnth : nthCreate s k = some (sk, r) := by simp [nthCreate, hsk, hc]
    have hfull1 : ¬ sk.hasFree → ¬ s1.hasFree := by
      intro hf
      rcases hcase with ⟨-, hs, -⟩ | ⟨-, -, hfree, -⟩
      · rw [hs]
        exact hf
      · exact absurd hfree hf
    have hr0 : r ≠ 0 → 0 ≤ r := by
      intro hr
      rcases hcase with ⟨h0, -, -⟩ | ⟨h1, -, -, -⟩
      · exact absurd h0 hr
      · omega
    refine ⟨s1, by simp [afterCreates, hsk, hc], by rw [hm1]; exact hmk, ht1, ?_, ?_⟩
    · intro j hj sj rj hnj hrj
      by_cases hjk : j = k
      · subst hjk
        rw [hnth] at hnj
        cases hnj
        exact ⟨hr0 hrj, (hmono.2 hrj).2⟩
      · obtain ⟨h0, hu⟩ := hused j (by omega) sj rj hnj hrj
        exact ⟨h0, hmono.1 rj h0 hu⟩
    · intro j hj sj rj hnj hsj
      by_cases hjk : j = k
      · subst hjk
        rw [hnth] at hnj
        cases hnj
        exact hfull1 hsj
      · exact hfull1 (hfull j (by omega) sj rj hnj hsj)

/-- C3: on a mounted volume whose inode table lies on the device, every call `k` of
a run of consecutive `fs_create` calls returns.  If some slot of `1 .. ninodes - 1`
is invalid when the call is made, the result is non-zero and differs from the
result of every earlier call of the run; if the table was full at this or an
earlier call of the run, the result is 0. -/
theorem fs_create_run_distinct (s : FS) (hm : s.MOUNTED ≠ 0) (ht : s.tableOnDevice)
    (k : Nat) :
    ∃ sk r, nthCreate s k = some (sk, r) ∧
      (sk.hasFree → r ≠ 0 ∧ ∀ j, j < k → ∀ sj rj, nthCreate s j = some (sj, rj) → rj ≠ r) ∧
      (∀ j, j ≤ k → ∀ sj rj, nthCreate s j = some (sj, rj) → ¬ sj.hasFree → r = 0) := by
  obtain ⟨sk, hsk, hmk, htk, hused, hfull⟩ := afterCreates_inv s hm ht k
  obtain ⟨r, s1, hc, -, -, -, -, hcase⟩ := fs_create_step sk hmk htk
  have hmono := fs_create_used sk s1 r hmk htk hc
  have hnth : nthCreate s k = some (sk, r) := by simp [nthCreate, hsk, hc]
  refine ⟨sk, r, hnth, ?_, ?_⟩
  · intro hfree
    have hr : r ≠ 0 := by
      rcases hcase with ⟨-, -, hf⟩ | ⟨h1, -, -, -⟩
      · exact absurd hfree hf
      · omega
    refine ⟨hr, ?_⟩
    intro j hj sj rj hnj heq
    subst heq
    exact (hmono.2 hr).1 (hused j hj sj rj hnj hr).2
  · intro j hj sj rj hnj hsj
    have hfk : ¬ sk.hasFree := by
      by_cases hjk : j = k
      · subst hjk
        rw [hnth] at hnj
        cases hnj
        exact hsj
      · exact hfull j (by omega) sj rj hnj hsj
    rcases hcase with ⟨h0, -, -⟩ | ⟨-, -, hf, -⟩
    · exact h0
    · exact absurd hf hfk

theorem result_eq_of_fst {o : Option (Int × FS)} {r : Int} (s : FS)
    (h : o.map Prod.fst = some r) : o = some (r, stateAfter s o) := by
  cases o with
  | none => simp at h
  | some p =>
    obtain ⟨a, b⟩ := p
    simp at h
    simp [stateAfter, h]

set_option maxRecDepth 100000 in
/-- C3, witness: the theorem applied to the volume mounted from `imageA`, for the
third call of a run of creates. -/
theorem fs_create_run_distinct_witness :
    (mounted imageA).MOUNTED ≠ 0 ∧ (mounted imageA).tableOnDevice ∧
      ∃ sk r, nthCreate (mounted imageA) 2 = some (sk, r) ∧
        (sk.hasFree → r ≠ 0 ∧
          ∀ j, j < 2 → ∀ sj rj, nthCreate (mounted imageA) j = some (sj, rj) → rj ≠ r) ∧
        (∀ j, j ≤ 2 → ∀ sj rj, nthCreate (mounted imageA) j = some (sj, rj) →
          ¬ sj.hasFree → r = 0) :=
  ⟨by decide, ⟨by decide, by decide⟩,
    fs_create_run_distinct (mounted imageA) (by decide) ⟨by decide, by decide⟩ 2⟩

/-- A non-zero result of the scan of `fs_create` names a slot whose `isvalid` was
0, and the disk returned is the one `inode_save` produces for it. -/
theorem create_scan_result (d d1 : Disk) (n : Nat) (i r : Int)
    (h : create_scan d n i = some (r, d1)) (hr : r ≠ 0) :
    i ≤ r ∧ ∃ x, inode_load d r = some x ∧ x.isvalid = 0 ∧
      inode_save d r { x with isvalid := 1, size := 0 } = some d1 := by
  induction n generalizing i with
  | zero =>
    simp [create_scan] at h
    exact absurd h.1.symm hr
  | succ n ih =>
    unfold create_scan at h
    cases hl : inode_load d i with
    | none => simp [hl] at h
    | some x =>
      rw [hl] at h
      change (if x.isvalid = 0 then _ else _) = _ at h
      by_cases hv : x.isvalid = 0
      · simp only [hv, if_true] at h
        cases hs : inode_save d i { x with isvalid := 1, size := 0 } with
        | none => simp [hs] at h
        | some d2 =>
          simp [hs] at h
          obtain ⟨rfl, rfl⟩ := h
          exact ⟨le_rfl, x, hl, hv, hs⟩
      · simp only [hv, if_false] at h
        obtain ⟨h1, h2⟩ := ih (i + 1) h
        exact ⟨by omega, h2⟩

set_option maxRecDepth 100000 in
/-- C10, counterexample: on the volume mounted from `imageC`, whose inode slot 1
is invalid and still holds direct pointer 6 and indirect pointer 5, `fs_create`
returns 1 and the persisted inode 1 is valid with size 0 but keeps `direct[0] = 6`
and `indirect = 5`. -/
theorem fs_create_keeps_stale_pointers :
    ((fs_mount (boot imageC)).bind fun r =>
        (fs_create r.2).map fun q =>
          (q.1, (inode_load q.2.disk 1).map fun x => (x.isvalid, x.size, x.direct 0, x.indirect)))
      = some (1, some (1, 0, 6, 5)) := by
  decide

/-- C10, amended: when mounted and `fs_create` returns `r ≠ 0`, slot `r` was
invalid, the persisted inode `r` is valid with size 0 and with the direct and
indirect pointers the slot held before, every other inode slot loads as before,
and the map and the mounted flag are unchanged. -/
theorem fs_create_result (s s1 : FS) (r : Int) (hm : s.MOUNTED ≠ 0)
    (h : fs_create s = some (r, s1)) (hr : r ≠ 0) :
    ∃ x, inode_load s.disk r = some x ∧ x.isvalid = 0 ∧
      inode_load s1.disk r =
        some { isvalid := 1, size := 0, direct := x.direct, indirect := x.indirect } ∧
      (∀ j : Int, 0 ≤ j → j ≠ r → inode_load s1.disk j = inode_load s.disk j) ∧
      s1.FREE_BLOCK_MAP = s.FREE_BLOCK_MAP ∧ s1.MOUNTED = s.MOUNTED := by
  unfold fs_create at h
  simp only [hm, if_false] at h
  cases hb : disk_read s.disk 0 with
  | none => simp [hb] at h
  | some sb =>
    rw [hb] at h
    change (create_scan s.disk (sb.super.ninodes - 1).toNat 1).bind _ = _ at h
    cases hsc : create_scan s.disk (sb.super.ninodes - 1).toNat 1 with
    | none =>
      rw [hsc] at h
      exact absurd h (by simp)
    | some p =>
      obtain ⟨r1, d1⟩ := p
      rw [hsc] at h
      simp only [Option.some_bind, Option.some.injEq, Prod.mk.injEq] at h
      obtain ⟨rfl, rfl⟩ := h
      obtain ⟨h1, x, hx, hv, hs⟩ := create_scan_result _ _ _ _ _ hsc hr
      have hload := inode_load_after_save (by omega : (0 : Int) ≤ r1) hs
      refine ⟨x, hx, hv, ?_, ?_, rfl, rfl⟩
      · rw [hload r1 (by omega), if_pos rfl]
      · intro j hj hne
        rw [hload j hj, if_neg hne]

set_option maxRecDepth 100000 in
/-- C10, witness: the amended theorem applied to the create on the volume mounted
from `imageC`, which returns 1. -/
theorem fs_create_result_witness :
    (mounted imageC).MOUNTED ≠ 0 ∧ (1 : Int) ≠ 0 ∧
      ∃ x, inode_load (mounted imageC).disk 1 = some x ∧ x.isvalid = 0 ∧
        inode_load (stateAfter (mounted imageC) (fs_create (mounted imageC))).disk 1 =
          some { isvalid := 1, size := 0, direct := x.direct, indirect := x.indirect } ∧
        (∀ j : Int, 0 ≤ j → j ≠ 1 →
          inode_load (stateAfter (mounted imageC) (fs_create (mounted imageC))).disk j =
            inode_load (mounted imageC).disk j) ∧
        (stateAfter (mounted imageC) (fs_create (mounted imageC))).FREE_BLOCK_MAP =
          (mounted imageC).FREE_BLOCK_MAP ∧
        (stateAfter (mounted imageC) (fs_create (mounted imageC))).MOUNTED =
          (mounted imageC).MOUNTED :=
  ⟨by decide, by decide,
    fs_create_result (mounted imageC) _ 1 (by decide)
      (result_eq_of_fst (mounted imageC) (by decide)) (by decide)⟩

/-! ## Mount (C6) -/

theorem mem_directRange (k : Fin 5) : k ∈ directRange := by
  fin_cases k <;> simp [directRange]

/-- A guarded assignment `if (c) FREE_BLOCK_MAP[idx] = v;` with the index in
bounds whenever the guard holds. -/
theorem guarded_set_marks (c : Prop) [Decidable c] (m : BlockMap) (idx v : Int)
    (h : c → 0 ≤ idx ∧ idx < m.len) :
    ∃ m1, (if c then m.set idx v else some m) = some m1 ∧
      Marks v (fun n => c ∧ (n : Int) = idx) m m1 := by
  by_cases hc : c
  · obtain ⟨m1, e1, k1⟩ := m.set_marks idx v (h hc).1 (h hc).2
    exact ⟨m1, by simp [hc, e1], k1.congr (by simp [hc])⟩
  · exact ⟨m, by simp [hc], (Marks.none v m).congr (by simp [hc])⟩

theorem mount_direct_marks (x : fs_inode) (m : BlockMap)
    (h : ∀ k, x.direct k ≠ 0 → 0 ≤ x.direct k ∧ x.direct k < m.len) :
    ∃ m1, mount_direct x m = some m1 ∧ Marks 1 (directRef x) m m1 := by
  obtain ⟨m1, e1, k1⟩ := forEach_marks 1 m.len
    (fun k m => if x.direct k ≠ 0 then m.set (x.direct k) 1 else some m)
    (fun k n => x.direct k ≠ 0 ∧ (n : Int) = x.direct k) directRange
    (fun k _ m0 h0 => guarded_set_marks _ m0 _ 1 (by rw [h0]; exact h k)) m rfl
  refine ⟨m1, e1, k1.congr ?_⟩
  intro n
  simp [directRef, mem_directRange]

theorem mount_pointers_marks (f : Block) (m : BlockMap)
    (h : ∀ p, p < 1024 → f.pointers p ≠ 0 → 0 ≤ f.pointers p ∧ f.pointers p < m.len) :
    ∃ m1, mount_pointers f m = some m1 ∧
      Marks 1 (fun n => ∃ p, p < 1024 ∧ f.pointers p ≠ 0 ∧ (n : Int) = f.pointers p) m m1 := by
  obtain ⟨m1, e1, k1⟩ := forEach_marks 1 m.len
    (fun p m => if f.pointers p ≠ 0 then m.set (f.pointers p) 1 else some m)
    (fun p n => f.pointers p ≠ 0 ∧ (n : Int) = f.pointers p) (List.range POINTERS_PER_BLOCK)
    (fun p hp m0 h0 => guarded_set_marks _ m0 _ 1
      (by rw [h0]; exact h p (by simpa [POINTERS_PER_BLOCK] using hp))) m rfl
  refine ⟨m1, e1, k1.congr ?_⟩
  intro n
  simp [POINTERS_PER_BLOCK]

/-- The body of the scan of `fs_mount` for one inode record whose pointers are in
range: if `isvalid == 1` it marks the non-zero direct pointers and the non-zero
entries of the indirect block, and nothing else. -/
theorem mount_inode_marks (d : Disk) (x : fs_inode) (m : BlockMap)
    (hd : x.isvalid = 1 → ∀ k, x.direct k ≠ 0 → 0 ≤ x.direct k ∧ x.direct k < m.len)
    (hi : x.isvalid = 1 → x.indirect ≠ 0 → 0 ≤ x.indirect ∧ x.indirect < d.size)
    (hp : x.isvalid = 1 → x.indirect ≠ 0 → ∀ p, p < 1024 →
      (d.blocks x.indirect.toNat).pointers p ≠ 0 →
        0 ≤ (d.blocks x.indirect.toNat).pointers p ∧
          (d.blocks x.indirect.toNat).pointers p < m.len) :
    ∃ m1, mount_inode d x m = some m1 ∧
      Marks 1 (fun n => x.isvalid = 1 ∧ (directRef x n ∨ indirectRef d x n)) m m1 := by
  unfold mount_inode
  by_cases hv : x.isvalid = 1
  · obtain ⟨m1, e1, k1⟩ := mount_direct_marks x m (hd hv)
    by_cases hind : x.indirect ≠ 0
    · have hr := disk_read_of_lt (hi hv hind).1 (hi hv hind).2
      obtain ⟨m2, e2, k2⟩ := mount_pointers_marks (d.blocks x.indirect.toNat) m1
        (by rw [k1.1]; exact hp hv hind)
      refine ⟨m2, ?_, (k1.trans k2).congr ?_⟩
      · rw [if_pos hv, e1, Option.some_bind, if_pos hind, hr, Option.some_bind, e2]
      intro n
      simp [hv, indirectRef, hind]
    · refine ⟨m1, ?_, k1.congr ?_⟩
      · rw [if_pos hv, e1, Option.some_bind, if_neg hind]
      intro n
      simp [hv, indirectRef, hind]
  · exact ⟨m, by rw [if_neg hv], (Marks.none 1 m).congr (by simp [hv])⟩

/-- The body of the outer loop of `fs_mount` for inode block `i`: it marks `i`
and what the 128 records of the block refer to. -/
theorem mount_block_marks (d : Disk) (i : Nat) (m : BlockMap) (hsz : i < d.size)
    (hlen : i < m.len)
    (hx : ∀ j, j < 128 → ((d.blocks i).inode j).isvalid = 1 →
      (∀ k, 0 ≤ ((d.blocks i).inode j).direct k ∧
        ((d.blocks i).inode j).direct k < m.len) ∧
      (0 ≤ ((d.blocks i).inode j).indirect ∧ ((d.blocks i).inode j).indirect < d.size) ∧
      (((d.blocks i).inode j).indirect ≠ 0 → ∀ p, p < 1024 →
        0 ≤ (d.blocks ((d.blocks i).inode j).indirect.toNat).pointers p ∧
          (d.blocks ((d.blocks i).inode j).indirect.toNat).pointers p < m.len)) :
    ∃ m1, mount_block d i m = some m1 ∧
      Marks 1 (fun n => n = i ∨ ∃ j, j < 128 ∧ ((d.blocks i).inode j).isvalid = 1 ∧
        (directRef ((d.blocks i).inode j) n ∨ indirectRef d ((d.blocks i).inode j) n)) m m1 := by
  have hr : disk_read d (i : Int) = some (d.blocks i) := by
    have := disk_read_of_lt (d := d) (b := (i : Int)) (by omega) (by exact_mod_cast hsz)
    simpa using this
  obtain ⟨m1, e1, k1⟩ := m.set_marks (i : Int) 1 (by omega) (by exact_mod_cast hlen)
  obtain ⟨m2, e2, k2⟩ := forEach_marks 1 m.len
    (fun j m => mount_inode d ((d.blocks i).inode j) m)
    (fun j n => ((d.blocks i).inode j).isvalid = 1 ∧
      (directRef ((d.blocks i).inode j) n ∨ indirectRef d ((d.blocks i).inode j) n))
    (List.range INODES_PER_BLOCK)
    (fun j hj m0 h0 => by
      have hj1 : j < 128 := by simpa [INODES_PER_BLOCK] using hj
      exact mount_inode_marks d _ m0
        (fun hv k _ => by rw [h0]; exact (hx j hj1 hv).1 k)
        (fun hv _ => (hx j hj1 hv).2.1)
        (fun hv hind p hp _ => by rw [h0]; exact (hx j hj1 hv).2.2 hind p hp))
    m1 k1.1
  refine ⟨m2, ?_, (k1.trans k2).congr ?_⟩
  · unfold mount_block
    rw [hr, Option.some_bind, e1, Option.some_bind, e2]
  · intro n
    simp [INODES_PER_BLOCK]

/-- The map built by `fs_mount` on an image with its pointers in range. -/
theorem fs_mount_spec (s : FS) (h : pointersInRange s.disk) :
    ∃ s1, fs_mount s = some (1, s1) ∧ s1.disk = s.disk ∧ s1.MOUNTED = 1 ∧
      s1.FREE_BLOCK_MAP.len = s.disk.super.nblocks.toNat ∧
      ∀ b, (mountInUse s.disk b → s1.FREE_BLOCK_MAP.bits b = 1) ∧
        (¬ mountInUse s.disk b → s1.FREE_BLOCK_MAP.bits b = 0) := by
  obtain ⟨hmagic, hn1, hnsz, hnib, hx⟩ := h
  have hsz : 0 < s.disk.size := by omega
  have hr : disk_read s.disk 0 = some (s.disk.blocks 0) :=
    disk_read_of_lt le_rfl (by exact_mod_cast hsz)
  have hlen : (BlockMap.calloc s.disk.super.nblocks).len = s.disk.super.nblocks.toNat := rfl
  obtain ⟨m0, e0, k0⟩ := (BlockMap.calloc s.disk.super.nblocks).set_marks 0 1 le_rfl
    (by rw [hlen]; omega)
  obtain ⟨m1, e1, k1⟩ := forEach_marks 1 s.disk.super.nblocks.toNat
    (fun (k : Nat) m => mount_block s.disk ((k : Int) + 1) m)
    (fun (k : Nat) n => n = k + 1 ∨ ∃ j, j < 128 ∧ ((s.disk.blocks (k + 1)).inode j).isvalid = 1 ∧
      (directRef ((s.disk.blocks (k + 1)).inode j) n ∨
        indirectRef s.disk ((s.disk.blocks (k + 1)).inode j) n))
    (List.range s.disk.super.ninodeblocks.toNat)
    (fun k hk m hm => by
      have hk1 : (k : Int) < s.disk.super.ninodeblocks := by
        have := List.mem_range.1 hk
        omega
      have hks : k + 1 < s.disk.size := by omega
      have := mount_block_marks s.disk (k + 1) m hks (by omega)
        (fun j hj hv => by
          obtain ⟨a, b, c⟩ := hx (k + 1) hks j hj (by omega) (by push_cast; omega) hv
          refine ⟨fun q => ⟨(a q).1, by have := (a q).2; omega⟩, ⟨b.1, by omega⟩, ?_⟩
          intro hind p hp
          exact ⟨(c hind p hp).1, by have := (c hind p hp).2; omega⟩)
      simpa using this)
    m0 (k0.1.trans hlen)
  refine ⟨{ s with FREE_BLOCK_MAP := m1, MOUNTED := 1 }, ?_, rfl, rfl,
    k1.1.trans (k0.1.trans hlen), ?_⟩
  · unfold fs_mount
    rw [hr, Option.some_bind]
    show (if toUInt32 s.disk.super.magic ≠ FS_MAGIC then _
      else ((BlockMap.calloc s.disk.super.nblocks).set 0 1).bind _) = _
    rw [if_neg (not_not.2 hmagic), e0, Option.some_bind]
    show (forEach _ (List.range s.disk.super.ninodeblocks.toNat) m0).bind _ = _
    rw [e1, Option.some_bind]
  · have hk := (k0.trans k1)
    have hiff : ∀ b : Nat, mountInUse s.disk b ↔
        ((b : Int) = 0 ∨ ∃ k ∈ List.range s.disk.super.ninodeblocks.toNat,
          b = k + 1 ∨ ∃ j, j < 128 ∧ ((s.disk.blocks (k + 1)).inode j).isvalid = 1 ∧
            (directRef ((s.disk.blocks (k + 1)).inode j) b ∨
              indirectRef s.disk ((s.disk.blocks (k + 1)).inode j) b)) := by
      intro b
      unfold mountInUse validInode
      constructor
      · rintro (h0 | ⟨h1, h2⟩ | ⟨x, ⟨i, j, hi1, hi2, hj, rfl, hv⟩, href⟩)
        · exact Or.inl (by exact_mod_cast h0)
        · exact Or.inr ⟨b - 1, List.mem_range.2 (by omega), Or.inl (by omega)⟩
        · refine Or.inr ⟨i - 1, List.mem_range.2 (by omega), Or.inr ⟨j, hj, ?_⟩⟩
          have : i - 1 + 1 = i := by omega
          rw [this]
          exact ⟨hv, href⟩
      · rintro (h0 | ⟨k, hk, (h1 | ⟨j, hj, hv, href⟩)⟩)
        · exact Or.inl (by exact_mod_cast h0)
        · have := List.mem_range.1 hk
          exact Or.inr (Or.inl ⟨by omega, by omega⟩)
        · have := List.mem_range.1 hk
          exact Or.inr (Or.inr ⟨_, ⟨k + 1, j, by omega, by push_cast; omega, hj, rfl, hv⟩, href⟩)
    intro b
    constructor
    · intro hb
      exact (hk.2 b).1 ((hiff b).1 hb)
    · intro hb
      rw [(hk.2 b).2 (fun hc => hb ((hiff b).2 hc))]
      rfl

set_option maxRecDepth 100000 in
/-- C6, counterexample: `imageA` is a formatted image with every pointer of its
valid inode 1 in range, the mount succeeds, inode 1 is valid and its indirect
pointer is 5, not 0, and yet the map marks block 5 free. -/
theorem fs_mount_skips_indirect_block :
    pointersInRange imageA ∧
      (fs_mount (boot imageA)).map (fun r =>
          (r.1, ((r.2.disk.blocks 1).inode 1).isvalid, ((r.2.disk.blocks 1).inode 1).indirect,
            r.2.FREE_BLOCK_MAP.bits 5))
        = some (1, 1, 5, 0) := by
  decide

/-- C6, amended: on a formatted image all of whose pointers are in range,
`fs_mount` returns 1, sets the mounted flag, and builds a map of `nblocks`
entries that marks a block in use if and only if it is block 0, an inode-table
block `1 .. ninodeblocks`, a non-zero direct pointer of a valid inode or a
non-zero entry of a valid inode's indirect block. -/
theorem fs_mount_in_use (s : FS) (h : pointersInRange s.disk) :
    ∃ s1, fs_mount s = some (1, s1) ∧ s1.MOUNTED = 1 ∧
      s1.FREE_BLOCK_MAP.len = s.disk.super.nblocks.toNat ∧
      ∀ b, s1.FREE_BLOCK_MAP.bits b ≠ 0 ↔ mountInUse s.disk b := by
  obtain ⟨s1, h1, -, h2, h3, h4⟩ := fs_mount_spec s h
  refine ⟨s1, h1, h2, h3, fun b => ⟨?_, ?_⟩⟩
  · intro hb
    by_contra hc
    exact hb ((h4 b).2 hc)
  · intro hb
    rw [(h4 b).1 hb]
    decide

set_option maxRecDepth 100000 in
/-- C6, witness: the amended theorem applied to the boot state on `imageA`. -/
theorem fs_mount_in_use_witness :
    pointersInRange (boot imageA).disk ∧
      ∃ s1, fs_mount (boot imageA) = some (1, s1) ∧ s1.MOUNTED = 1 ∧
        s1.FREE_BLOCK_MAP.len = (boot imageA).disk.super.nblocks.toNat ∧
        ∀ b, s1.FREE_BLOCK_MAP.bits b ≠ 0 ↔ mountInUse (boot imageA).disk b :=
  ⟨by decide, fs_mount_in_use (boot imageA) (by decide)⟩

/-! ## Delete (C4, C7, C8) -/

theorem delete_direct_marks (x : fs_inode) (m : BlockMap)
    (h : ∀ k, 0 ≤ x.direct k ∧ x.direct k < m.len) :
    ∃ m1, delete_direct x m = some m1 ∧
      Marks 0 (fun n => ∃ k, (n : Int) = x.direct k) m m1 := by
  obtain ⟨m1, e1, k1⟩ := forEach_marks 0 m.len
    (fun k m => m.set (x.direct k) 0)
    (fun k n => (n : Int) = x.direct k) directRange
    (fun k _ m0 h0 => m0.set_marks _ 0 (h k).1 (by rw [h0]; exact (h k).2)) m rfl
  refine ⟨m1, e1, k1.congr ?_⟩
  intro n
  simp [mem_directRange]

theorem delete_pointers_marks (f : Block) (m : BlockMap)
    (h : ∀ p, p < 1024 → 0 < f.pointers p → f.pointers p < m.len) :
    ∃ m1, delete_pointers f m = some m1 ∧
      Marks 0 (fun n => ∃ p, p < 1024 ∧ 0 < f.pointers p ∧ (n : Int) = f.pointers p) m m1 := by
  obtain ⟨m1, e1, k1⟩ := forEach_marks 0 m.len
    (fun p m => if f.pointers p > 0 then m.set (f.pointers p) 0 else some m)
    (fun p n => f.pointers p > 0 ∧ (n : Int) = f.pointers p) (List.range POINTERS_PER_BLOCK)
    (fun p hp m0 h0 => guarded_set_marks _ m0 _ 0 (fun hc =>
      ⟨le_of_lt hc, by rw [h0]; exact h p (by simpa [POINTERS_PER_BLOCK] using hp) hc⟩)) m rfl
  refine ⟨m1, e1, k1.congr ?_⟩
  intro n
  simp [POINTERS_PER_BLOCK]

/-- What `fs_delete` does when its accesses stay in bounds: it returns 1, keeps
the mounted flag, saves the loaded record with `isvalid = 0` and `size = 0` and
its pointers as they were, and sets to 0 exactly the map entries named by the
five direct pointers and by the positive entries of the block that `indirect`
names. -/
theorem fs_delete_spec (s : FS) (i : Int) (x : fs_inode) (hm : s.MOUNTED ≠ 0) (h0 : 0 ≤ i)
    (hx : inode_load s.disk i = some x) (hb : deleteInBounds s x) :
    ∃ s1, fs_delete s i = some (1, s1) ∧ s1.MOUNTED = s.MOUNTED ∧
      inode_save s.disk i x.cleared = some s1.disk ∧
      Marks 0 (fun n => (∃ k, (n : Int) = x.direct k) ∨
          ∃ p, p < 1024 ∧ 0 < (s.disk.blocks x.indirect.toNat).pointers p ∧
            (n : Int) = (s.disk.blocks x.indirect.toNat).pointers p)
        s.FREE_BLOCK_MAP s1.FREE_BLOCK_MAP := by
  obtain ⟨hd, hi, hp⟩ := hb
  obtain ⟨m1, e1, k1⟩ := delete_direct_marks x.cleared s.FREE_BLOCK_MAP hd
  obtain ⟨m2, e2, k2⟩ := delete_pointers_marks (s.disk.blocks x.indirect.toNat) m1
    (by rw [k1.1]; exact hp)
  obtain ⟨d1, hs, -, -⟩ := inode_save_of_load x.cleared h0 hx
  have hr : disk_read s.disk x.indirect = some (s.disk.blocks x.indirect.toNat) :=
    disk_read_of_lt hi.1 hi.2
  refine ⟨{ s with disk := d1, FREE_BLOCK_MAP := m2 }, ?_, rfl, hs, k1.trans k2⟩
  clear k1 k2
  unfold fs_delete
  rw [if_neg hm, hx, Option.some_bind]
  have hc : x.cleared =
      { isvalid := 0, size := 0, direct := x.direct, indirect := x.indirect } := rfl
  rw [hc] at e1 hs
  dsimp only
  rw [e1, Option.some_bind, hr, Option.some_bind, e2, Option.some_bind, hs, Option.some_bind]

theorem fs_inode.cleared_word (x : fs_inode) (k : Nat) :
    x.cleared.word k = 0 ∨ x.cleared.word k = x.word k := by
  unfold fs_inode.cleared fs_inode.word
  by_cases h0 : k = 0
  · simp [h0]
  · by_cases h1 : k = 1
    · simp [h1]
    · simp [h0, h1]

/-- Saving the cleared copy of the record that was loaded from slot `i` changes a
word of the disk only by setting it to 0. -/
theorem inode_save_cleared_words {d d1 : Disk} {i : Int} {x : fs_inode} (h0 : 0 ≤ i)
    (hx : inode_load d i = some x) (hs : inode_save d i x.cleared = some d1) :
    d1.size = d.size ∧ ∀ b w, d1.blocks b w = 0 ∨ d1.blocks b w = d.blocks b w := by
  obtain ⟨d2, hs2, hsize, hblocks⟩ := inode_save_of_load x.cleared h0 hx
  rw [hs] at hs2
  cases hs2
  refine ⟨hsize, fun b w => ?_⟩
  rw [inode_load_nonneg d i h0] at hx
  cases hr : disk_read d (i / 128 + 1) with
  | none => simp [hr] at hx
  | some blk =>
    obtain ⟨-, rfl⟩ := disk_read_eq_some.1 hr
    rw [hr] at hx
    simp only [Option.map_some', Option.some.injEq] at hx
    rw [hblocks]
    by_cases hbn : b = (i / 128 + 1).toNat
    · simp only [hbn, if_true, Block.setInode]
      by_cases hw : w / 8 = (i % 128).toNat
      · simp only [hw, if_true]
        rcases x.cleared_word (w % 8) with h | h
        · exact Or.inl h
        · right
          rw [h, ← hx, Block.inode_word _ _ _ (Nat.mod_lt _ (by omega))]
          congr 1
          omega
      · simp [hw]
    · simp [hbn]

theorem inode_load_eq_inodeAt {d : Disk} {i : Int} (h : (inode_load d i).isSome = true) :
    inode_load d i = some (inodeAt d i) := by
  unfold inodeAt
  cases hl : inode_load d i with
  | none => simp [hl] at h
  | some x => rfl

set_option maxRecDepth 100000 in
/-- C4, counterexample: on the volume mounted from `imageB`, `fs_delete(1)` twice
in a row returns 1 both times, and afterwards the persisted inode 1 is invalid
with size 0 but still holds `direct[0] = 2` and `indirect = 7`. -/
theorem fs_delete_twice_keeps_pointers :
    ((fs_mount (boot imageB)).bind fun r =>
        (fs_delete r.2 1).bind fun q1 =>
          (fs_delete q1.2 1).map fun q2 =>
            (q1.1, q2.1, (inodeAt q2.2.disk 1).isvalid, (inodeAt q2.2.disk 1).size,
              (inodeAt q2.2.disk 1).direct 0, (inodeAt q2.2.disk 1).indirect))
      = some (1, 1, 0, 0, 2, 7) := by
  decide

/-- C4, amended: when mounted, for an inode number `i` of the table whose record
keeps the accesses of `fs_delete` in bounds, `fs_delete(i)` twice in a row returns
1 both times, and afterwards the persisted inode `i` has `isvalid = 0` and
`size = 0`, while its direct and indirect pointers are the ones it held before. -/
theorem fs_delete_twice (s : FS) (i : Int) (x : fs_inode) (hm : s.MOUNTED ≠ 0) (h0 : 0 ≤ i)
    (hx : inode_load s.disk i = some x) (hb : deleteInBounds s x) :
    ∃ s1 s2, fs_delete s i = some (1, s1) ∧ fs_delete s1 i = some (1, s2) ∧
      inode_load s2.disk i =
        some { isvalid := 0, size := 0, direct := x.direct, indirect := x.indirect } := by
  obtain ⟨s1, hd1, hm1, hs1, k1⟩ := fs_delete_spec s i x hm h0 hx hb
  have hx1 : inode_load s1.disk i = some x.cleared := by
    rw [inode_load_after_save h0 hs1 i h0, if_pos rfl]
  obtain ⟨hsize, hwords⟩ := inode_save_cleared_words h0 hx hs1
  have hb1 : deleteInBounds s1 x.cleared := by
    obtain ⟨hd, hi, hp⟩ := hb
    refine ⟨fun k => by rw [k1.1]; exact hd k, by rw [hsize]; exact hi, ?_⟩
    intro p hp1 hpos
    rw [k1.1]
    have hw := hwords x.indirect.toNat p
    change (s1.disk.blocks x.indirect.toNat p = 0 ∨
      s1.disk.blocks x.indirect.toNat p = s.disk.blocks x.indirect.toNat p) at hw
    change 0 < s1.disk.blocks x.indirect.toNat p at hpos
    change s1.disk.blocks x.indirect.toNat p < _
    rcases hw with hw | hw
    · omega
    · rw [hw] at hpos ⊢
      exact hp p hp1 hpos
  obtain ⟨s2, hd2, -, hs2, -⟩ :=
    fs_delete_spec s1 i x.cleared (by rw [hm1]; exact hm) h0 hx1 hb1
  refine ⟨s1, s2, hd1, hd2, ?_⟩
  rw [inode_load_after_save h0 hs2 i h0, if_pos rfl]
  rfl

set_option maxRecDepth 100000 in
/-- C4, witness: the amended theorem applied to inode 1 of the volume mounted
from `imageB`. -/
theorem fs_delete_twice_witness :
    (mounted imageB).MOUNTED ≠ 0 ∧ (0 : Int) ≤ 1 ∧
      deleteInBounds (mounted imageB) (inodeAt (mounted imageB).disk 1) ∧
      ∃ s1 s2, fs_delete (mounted imageB) 1 = some (1, s1) ∧ fs_delete s1 1 = some (1, s2) ∧
        inode_load s2.disk 1 =
          some { isvalid := 0, size := 0,
                 direct := (inodeAt (mounted imageB).disk 1).direct,
                 indirect := (inodeAt (mounted imageB).disk 1).indirect } :=
  ⟨by decide, by decide, by decide,
    fs_delete_twice (mounted imageB) 1 (inodeAt (mounted imageB).disk 1) (by decide) (by decide)
      (inode_load_eq_inodeAt (by decide)) (by decide)⟩

set_option maxRecDepth 100000 in
/-- C7, counterexample: `imageB` has every pointer in range and mounts; inode 1 is
valid with indirect pointer 7; `fs_delete(1)` returns 1 and leaves block 7, the
indirect block itself, marked in use. -/
theorem fs_delete_keeps_indirect_block :
    pointersInRange imageB ∧
      ((fs_mount (boot imageB)).bind fun r =>
          (fs_delete r.2 1).map fun q =>
            (r.1, ((r.2.disk.blocks 1).inode 1).isvalid, ((r.2.disk.blocks 1).inode 1).indirect,
              q.1, q.2.FREE_BLOCK_MAP.bits 7))
        = some (1, 1, 7, 1, 1) := by
  decide

/-- C7, amended: when mounted, `fs_delete(i)` of an inode with `indirect ≠ 0`
whose record keeps the accesses of `fs_delete` in bounds returns 1 and leaves the
map with every non-zero direct block of `i` marked free and every positive entry
of `i`'s indirect block marked free; the entry of the indirect block itself is not
written: it is as before the call unless the block is also named by a direct
pointer or by an entry of the indirect block. -/
theorem fs_delete_releases (s : FS) (i : Int) (x : fs_inode) (hm : s.MOUNTED ≠ 0)
    (h0 : 0 ≤ i) (hx : inode_load s.disk i = some x) (_hind : x.indirect ≠ 0)
    (hb : deleteInBounds s x) :
    ∃ s1, fs_delete s i = some (1, s1) ∧
      (∀ k, x.direct k ≠ 0 → s1.FREE_BLOCK_MAP.bits (x.direct k).toNat = 0) ∧
      (∀ p, p < 1024 → 0 < (s.disk.blocks x.indirect.toNat).pointers p →
        s1.FREE_BLOCK_MAP.bits ((s.disk.blocks x.indirect.toNat).pointers p).toNat = 0) ∧
      ((∀ k, x.direct k ≠ x.indirect) →
        (∀ p, p < 1024 → (s.disk.blocks x.indirect.toNat).pointers p ≠ x.indirect) →
        s1.FREE_BLOCK_MAP.bits x.indirect.toNat = s.FREE_BLOCK_MAP.bits x.indirect.toNat) := by
  obtain ⟨s1, hd1, -, -, k1⟩ := fs_delete_spec s i x hm h0 hx hb
  obtain ⟨hd, hi, hp⟩ := hb
  refine ⟨s1, hd1, ?_, ?_, ?_⟩
  · intro k _
    exact (k1.2 _).1 (Or.inl ⟨k, Int.toNat_of_nonneg (hd k).1⟩)
  · intro p hp1 hpos
    exact (k1.2 _).1 (Or.inr ⟨p, hp1, hpos, Int.toNat_of_nonneg (le_of_lt hpos)⟩)
  · intro hk hq
    apply (k1.2 _).2
    rintro (⟨k, hk1⟩ | ⟨p, hp1, -, hp2⟩)
    · rw [Int.toNat_of_nonneg hi.1] at hk1
      exact hk k hk1.symm
    · rw [Int.toNat_of_nonneg hi.1] at hp2
      exact hq p hp1 hp2.symm

set_option maxRecDepth 100000 in
/-- C7, witness: the amended theorem applied to inode 1 of the volume mounted
from `imageB`. -/
theorem fs_delete_releases_witness :
    (mounted imageB).MOUNTED ≠ 0 ∧ (0 : Int) ≤ 1 ∧
      (inodeAt (mounted imageB).disk 1).indirect ≠ 0 ∧
      deleteInBounds (mounted imageB) (inodeAt (mounted imageB).disk 1) ∧
      ∃ s1, fs_delete (mounted imageB) 1 = some (1, s1) ∧
        (∀ k, (inodeAt (mounted imageB).disk 1).direct k ≠ 0 →
          s1.FREE_BLOCK_MAP.bits ((inodeAt (mounted imageB).disk 1).direct k).toNat = 0) ∧
        (∀ p, p < 1024 →
          0 < ((mounted imageB).disk.blocks
            (inodeAt (mounted imageB).disk 1).indirect.toNat).pointers p →
          s1.FREE_BLOCK_MAP.bits (((mounted imageB).disk.blocks
            (inodeAt (mounted imageB).disk 1).indirect.toNat).pointers p).toNat = 0) ∧
        ((∀ k, (inodeAt (mounted imageB).disk 1).direct k ≠
            (inodeAt (mounted imageB).disk 1).indirect) →
          (∀ p, p < 1024 →
            ((mounted imageB).disk.blocks
              (inodeAt (mounted imageB).disk 1).indirect.toNat).pointers p ≠
                (inodeAt (mounted imageB).disk 1).indirect) →
          s1.FREE_BLOCK_MAP.bits (inodeAt (mounted imageB).disk 1).indirect.toNat =
            (mounted imageB).FREE_BLOCK_MAP.bits
              (inodeAt (mounted imageB).disk 1).indirect.toNat) :=
  ⟨by decide, by decide, by decide, by decide,
    fs_delete_releases (mounted imageB) 1 (inodeAt (mounted imageB).disk 1) (by decide)
      (by decide) (inode_load_eq_inodeAt (by decide)) (by decide) (by decide)⟩

set_option maxRecDepth 100000 in
/-- C8, the code at the failing input: on the volume mounted from `imageC`, inode
1 is invalid with stale size 5000 and stale direct pointer 6, and block 6 is in
use (it belongs to the valid inode 2); `fs_delete(1)` returns 1, rewrites the
record of inode 1 with size 0 and marks block 6 and block 0 free. -/
theorem fs_delete_invalid_not_noop :
    ((fs_mount (boot imageC)).bind fun r =>
        (fs_delete r.2 1).map fun q =>
          ((r.1, (inodeAt r.2.disk 1).isvalid, (inodeAt r.2.disk 1).size,
              r.2.FREE_BLOCK_MAP.bits 6, r.2.FREE_BLOCK_MAP.bits 0),
            (q.1, (inodeAt q.2.disk 1).isvalid, (inodeAt q.2.disk 1).size,
              q.2.FREE_BLOCK_MAP.bits 6, q.2.FREE_BLOCK_MAP.bits 0)))
      = some ((1, 0, 5000, 1, 1), (1, 0, 0, 0, 0)) := by
  decide

/-! ## Mount on an unformatted device (C11) -/

/-- C11: on a device whose block 0 exists and does not carry the magic,
`fs_mount` returns 0 and leaves the whole state (disk, map, mounted flag) as it
was; if the state was unmounted, a following `fs_create` returns 0 and leaves the
state as it was, and `fs_getsize(i)` returns -1 for every `i`. -/
theorem fs_mount_unformatted (s : FS) (hsz : 0 < s.disk.size)
    (hmagic : toUInt32 s.disk.super.magic ≠ FS_MAGIC) :
    fs_mount s = some (0, s) ∧
      (s.MOUNTED = 0 → fs_create s = some (0, s) ∧ ∀ i, fs_getsize s i = some (-1)) := by
  have hr : disk_read s.disk 0 = some (s.disk.blocks 0) :=
    disk_read_of_lt le_rfl (by exact_mod_cast hsz)
  refine ⟨?_, fun hm => ⟨?_, fun i => ?_⟩⟩
  · unfold fs_mount
    rw [hr, Option.some_bind]
    show (if toUInt32 s.disk.super.magic ≠ FS_MAGIC then _ else _) = _
    rw [if_pos hmagic]
  · unfold fs_create
    rw [if_pos hm]
  · unfold fs_getsize
    rw [if_pos hm]

set_option maxRecDepth 100000 in
/-- C11, witness: the theorem applied to the boot state on the never-formatted
`rawDevice`. -/
theorem fs_mount_unformatted_witness :
    0 < (boot rawDevice).disk.size ∧
      toUInt32 (boot rawDevice).disk.super.magic ≠ FS_MAGIC ∧
      fs_mount (boot rawDevice) = some (0, boot rawDevice) ∧
      ((boot rawDevice).MOUNTED = 0 →
        fs_create (boot rawDevice) = some (0, boot rawDevice) ∧
          ∀ i, fs_getsize (boot rawDevice) i = some (-1)) :=
  ⟨by decide, by decide, fs_mount_unformatted (boot rawDevice) (by decide) (by decide)⟩

/-! ## Getsize (C12, C13, C15) and the lifecycle guards (C14) -/

/-- C12: when mounted, for an inode number `i` whose record `x` can be loaded,
`fs_getsize(i)` returns -1 if `x.isvalid` is 0 and the stored `x.size` otherwise.
The function only reads: its embedding takes the state and yields a value, so
the disk and the map are as before the call. -/
theorem fs_getsize_spec (s : FS) (i : Int) (x : fs_inode) (hm : s.MOUNTED ≠ 0)
    (hx : inode_load s.disk i = some x) :
    fs_getsize s i = some (if x.isvalid = 0 then -1 else x.size) := by
  unfold fs_getsize
  rw [if_neg hm, hx, Option.some_bind]
  by_cases hv : x.isvalid = 0
  · rw [if_pos hv, if_pos hv]
  · rw [if_neg hv, if_neg hv]

set_option maxRecDepth 100000 in
/-- C12, witness: the theorem applied to inode 1 of the volume mounted from
`imageB`, whose stored size is 24576. -/
theorem fs_getsize_spec_witness :
    (mounted imageB).MOUNTED ≠ 0 ∧
      fs_getsize (mounted imageB) 1 =
        some (if (inodeAt (mounted imageB).disk 1).isvalid = 0 then -1
          else (inodeAt (mounted imageB).disk 1).size) :=
  ⟨by decide,
    fs_getsize_spec (mounted imageB) 1 (inodeAt (mounted imageB).disk 1) (by decide)
      (inode_load_eq_inodeAt (by decide))⟩

/-- What a non-zero result of `fs_create` on a mounted volume means: the result
is at least 1, the slot was invalid, and the new disk is the one `inode_save`
produces for the slot with `isvalid = 1`, `size = 0`; map and flag are kept. -/
theorem fs_create_nonzero (s s1 : FS) (r : Int) (hm : s.MOUNTED ≠ 0)
    (h : fs_create s = some (r, s1)) (hr : r ≠ 0) :
    1 ≤ r ∧ s1.MOUNTED = s.MOUNTED ∧ s1.FREE_BLOCK_MAP = s.FREE_BLOCK_MAP ∧
      ∃ x, inode_load s.disk r = some x ∧ x.isvalid = 0 ∧
        inode_save s.disk r { x with isvalid := 1, size := 0 } = some s1.disk := by
  unfold fs_create at h
  simp only [hm, if_false] at h
  cases hb : disk_read s.disk 0 with
  | none => simp [hb] at h
  | some sb =>
    rw [hb] at h
    change (create_scan s.disk (sb.super.ninodes - 1).toNat 1).bind _ = _ at h
    cases hsc : create_scan s.disk (sb.super.ninodes - 1).toNat 1 with
    | none =>
      rw [hsc] at h
      exact absurd h (by simp)
    | some p =>
      obtain ⟨r1, d1⟩ := p
      rw [hsc] at h
      simp only [Option.some_bind, Option.some.injEq, Prod.mk.injEq] at h
      obtain ⟨rfl, rfl⟩ := h
      obtain ⟨h1, x, hx, hv, hs⟩ := create_scan_result _ _ _ _ _ hsc hr
      exact ⟨h1, rfl, rfl, x, hx, hv, hs⟩

/-- C13: when mounted, if `fs_create` returns `r ≠ 0`, then `fs_getsize(r)` in the
state it leaves returns exactly 0. -/
theorem fs_getsize_after_create (s s1 : FS) (r : Int) (hm : s.MOUNTED ≠ 0)
    (h : fs_create s = some (r, s1)) (hr : r ≠ 0) :
    fs_getsize s1 r = some 0 := by
  obtain ⟨h1, hm1, -, x, -, -, hs⟩ := fs_create_nonzero s s1 r hm h hr
  have hload := inode_load_after_save (by omega : (0 : Int) ≤ r) hs r (by omega)
  rw [if_pos rfl] at hload
  unfold fs_getsize
  rw [if_neg (by rw [hm1]; exact hm), hload, Option.some_bind]
  simp

set_option maxRecDepth 100000 in
/-- C13, witness: the theorem applied to the create on the volume mounted from
`imageC`, which returns 1. -/
theorem fs_getsize_after_create_witness :
    (mounted imageC).MOUNTED ≠ 0 ∧ (1 : Int) ≠ 0 ∧
      fs_getsize (stateAfter (mounted imageC) (fs_create (mounted imageC))) 1 = some 0 :=
  ⟨by decide, by decide,
    fs_getsize_after_create (mounted imageC) _ 1 (by decide)
      (result_eq_of_fst (mounted imageC) (by decide)) (by decide)⟩

/-- C14: an operation refused because of the lifecycle state returns its failure
value and leaves the whole state (disk, map, mounted flag) as it was: `fs_format`
while mounted returns 0; `fs_create`, `fs_delete` and `fs_getsize` while not
mounted return 0, 0 and -1 (`fs_getsize` only reads and yields no state). -/
theorem lifecycle_refusals (s : FS) :
    (s.MOUNTED ≠ 0 → ∀ junk, fs_format junk s = some (0, s)) ∧
      (s.MOUNTED = 0 →
        fs_create s = some (0, s) ∧
          ∀ i, fs_delete s i = some (0, s) ∧ fs_getsize s i = some (-1)) := by
  refine ⟨fun hm junk => ?_, fun hm => ⟨?_, fun i => ⟨?_, ?_⟩⟩⟩
  · unfold fs_format
    rw [if_pos hm]
  · unfold fs_create
    rw [if_pos hm]
  · unfold fs_delete
    rw [if_pos hm]
  · unfold fs_getsize
    rw [if_pos hm]

set_option maxRecDepth 100000 in
/-- C14, witness: the theorem applied to the volume mounted from `imageA` (format
is refused) and to the boot state on `imageA` (create, delete and getsize are
refused). -/
theorem lifecycle_refusals_witness :
    ((mounted imageA).MOUNTED ≠ 0 ∧
        ∀ junk, fs_format junk (mounted imageA) = some (0, mounted imageA)) ∧
      ((boot imageA).MOUNTED = 0 ∧
        fs_create (boot imageA) = some (0, boot imageA) ∧
          ∀ i, fs_delete (boot imageA) i = some (0, boot imageA) ∧
            fs_getsize (boot imageA) i = some (-1)) :=
  ⟨⟨by decide, (lifecycle_refusals (mounted imageA)).1 (by decide)⟩,
    ⟨rfl, (lifecycle_refusals (boot imageA)).2 rfl⟩⟩

/-- What a returned `fs_delete` on a mounted volume has done to the disk: it has
saved the loaded record with `isvalid = 0` and `size = 0`; the flag is kept. -/
theorem fs_delete_returned (s s1 : FS) (i r : Int) (hm : s.MOUNTED ≠ 0)
    (h : fs_delete s i = some (r, s1)) :
    r = 1 ∧ s1.MOUNTED = s.MOUNTED ∧
      ∃ x, inode_load s.disk i = some x ∧ inode_save s.disk i x.cleared = some s1.disk := by
  unfold fs_delete at h
  rw [if_neg hm] at h
  cases hx : inode_load s.disk i with
  | none =>
    rw [hx] at h
    exact absurd h (by simp)
  | some x =>
    rw [hx, Option.some_bind] at h
    dsimp only at h
    simp only [Option.bind_eq_some] at h
    obtain ⟨m1, -, f, -, m2, -, d, hs, hres⟩ := h
    simp only [Option.some.injEq, Prod.mk.injEq] at hres
    obtain ⟨rfl, rfl⟩ := hres
    exact ⟨rfl, rfl, x, rfl, hs⟩

/-- In a run of `fs_delete(i)` that stays in bounds and returns, the slot is saved
with `isvalid = 0`, so `fs_getsize(i)` in the state it leaves returns -1. -/
theorem fs_getsize_after_delete (s s1 : FS) (i r : Int) (hm : s.MOUNTED ≠ 0) (h0 : 0 ≤ i)
    (h : fs_delete s i = some (r, s1)) :
    fs_getsize s1 i = some (-1) := by
  obtain ⟨-, hm1, x, -, hs⟩ := fs_delete_returned s s1 i r hm h
  have hload := inode_load_after_save h0 hs i h0
  rw [if_pos rfl] at hload
  unfold fs_getsize
  rw [if_neg (by rw [hm1]; exact hm), hload, Option.some_bind]
  simp [fs_inode.cleared]

set_option maxRecDepth 100000 in
/-- C15, the code at the failing input: in the scenario `format; mount; create` on
a 100-block device, create returns 1, the write of 5000 bytes returns 0 and
leaves the state as it was, and `fs_getsize(1)` returns 0.  Inode 1 has
`indirect = 0`, so `fs_delete(1)` reads block 0 as an indirect block; its word 1
is `nblocks = 100` and the map has 100 entries, so the assignment
`FREE_BLOCK_MAP[100] = 0` is out of bounds: the delete has no defined result,
and neither has the `fs_getsize(1)` that follows it. -/
theorem scenario_delete_out_of_bounds :
    scenarioVolume.map (fun c =>
        ((c.1, (fs_write c.2 1 (List.replicate 5000 65) 5000 0).1,
            fs_getsize (fs_write c.2 1 (List.replicate 5000 65) 5000 0).2 1),
          ((inodeAt c.2.disk 1).indirect, (c.2.disk.blocks 0).pointers 1,
            c.2.FREE_BLOCK_MAP.len),
          ((fs_delete (fs_write c.2 1 (List.replicate 5000 65) 5000 0).2 1).isSome,
            (fs_delete (fs_write c.2 1 (List.replicate 5000 65) 5000 0).2 1).bind
              fun q => fs_getsize q.2 1)))
      = some ((1, 0, some 0), (0, 100, 100), (false, none)) := by
  decide

/-! ## The slot that create picks (C16) -/

/-- C16: on a mounted volume whose inode table lies on the device, `fs_create`
returns.  The result is 0 exactly when no slot of `1 .. ninodes - 1` is invalid,
and then the state is unchanged (no file is created under number 0).  A non-zero
result is the least number in `1 .. ninodes - 1` whose slot is invalid.  In
particular, if the table has a slot 1 and all its slots are invalid, the result
is 1. -/
theorem fs_create_least (s : FS) (hm : s.MOUNTED ≠ 0) (ht : s.tableOnDevice) :
    ∃ r s1, fs_create s = some (r, s1) ∧ (r = 0 ↔ ¬ s.hasFree) ∧ (r = 0 → s1 = s) ∧
      (r ≠ 0 → 1 ≤ r ∧ r < s.ninodes ∧
        (∃ x, inode_load s.disk r = some x ∧ x.isvalid = 0) ∧
        ∀ j : Int, 1 ≤ j → j < s.ninodes →
          (∃ y, inode_load s.disk j = some y ∧ y.isvalid = 0) → r ≤ j) ∧
      (1 < s.ninodes →
        (∀ j : Int, 1 ≤ j → j < s.ninodes →
          ∃ y, inode_load s.disk j = some y ∧ y.isvalid = 0) → r = 1) := by
  obtain ⟨r, s1, hc, -, -, -, -, hcase⟩ := fs_create_step s hm ht
  refine ⟨r, s1, hc, ?_⟩
  rcases hcase with ⟨h0, hs, hfull⟩ | ⟨h1, h2, hfree, hall, x, hx, hv, -⟩
  · refine ⟨⟨fun _ => hfull, fun _ => h0⟩, fun _ => hs, fun hr => absurd h0 hr, ?_⟩
    intro hn hinv
    exact absurd ⟨1, le_rfl, hn, hinv 1 le_rfl hn⟩ hfull
  · have hleast : ∀ j : Int, 1 ≤ j → j < s.ninodes →
        (∃ y, inode_load s.disk j = some y ∧ y.isvalid = 0) → r ≤ j := by
      intro j hj1 _ hjinv
      by_contra hlt
      obtain ⟨y, hy, hy0⟩ := hjinv
      obtain ⟨z, hz, hz0⟩ := hall j hj1 (by omega)
      rw [hy] at hz
      cases hz
      exact hz0 hy0
    refine ⟨⟨fun h0 => by omega, fun hfull => absurd hfree hfull⟩, fun h0 => by omega,
      fun _ => ⟨h1, h2, ⟨x, hx, hv⟩, hleast⟩, ?_⟩
    intro hn hinv
    have := hleast 1 le_rfl hn (hinv 1 le_rfl hn)
    omega

set_option maxRecDepth 100000 in
/-- C16, witness: the theorem applied to the volume mounted from `imageC`. -/
theorem fs_create_least_witness :
    (mounted imageC).MOUNTED ≠ 0 ∧ (mounted imageC).tableOnDevice ∧
      ∃ r s1, fs_create (mounted imageC) = some (r, s1) ∧
        (r = 0 ↔ ¬ (mounted imageC).hasFree) ∧ (r = 0 → s1 = mounted imageC) ∧
        (r ≠ 0 → 1 ≤ r ∧ r < (mounted imageC).ninodes ∧
          (∃ x, inode_load (mounted imageC).disk r = some x ∧ x.isvalid = 0) ∧
          ∀ j : Int, 1 ≤ j → j < (mounted imageC).ninodes →
            (∃ y, inode_load (mounted imageC).disk j = some y ∧ y.isvalid = 0) → r ≤ j) ∧
        (1 < (mounted imageC).ninodes →
          (∀ j : Int, 1 ≤ j → j < (mounted imageC).ninodes →
            ∃ y, inode_load (mounted imageC).disk j = some y ∧ y.isvalid = 0) → r = 1) :=
  ⟨by decide, ⟨by decide, by decide⟩,
    fs_create_least (mounted imageC) (by decide) ⟨by decide, by decide⟩⟩

/-! ## Save and load (C17) -/

/-- C17: for inode numbers `i, j ≥ 0`, the block of `i` being on the device, and
every record `v`, `inode_save(i, v)` succeeds; afterwards a load of `j` yields `v`
if `j = i` and what it yielded before the save if `j ≠ i`; the device keeps its
size and every block other than block `i / 128 + 1` is as it was. -/
theorem inode_save_load (d : Disk) (i j : Int) (v : fs_inode) (h0 : 0 ≤ i) (hj : 0 ≤ j)
    (hdev : i / 128 + 1 < d.size) :
    ∃ d1, inode_save d i v = some d1 ∧
      inode_load d1 j = (if j = i then some v else inode_load d j) ∧
      d1.size = d.size ∧ ∀ b, b ≠ (i / 128 + 1).toNat → d1.blocks b = d.blocks b := by
  obtain ⟨d1, hs, hsize, hblocks⟩ := inode_save_of_load v h0 (inode_load_of_block h0 hdev)
  refine ⟨d1, hs, inode_load_after_save h0 hs j hj, hsize, ?_⟩
  intro b hb
  rw [hblocks]
  simp [hb]

set_option maxRecDepth 100000 in
/-- C17, witness: the theorem applied to `imageB`, saving the record of slot 2
into slot 1 and loading slot 2. -/
theorem inode_save_load_witness :
    (0 : Int) ≤ 1 ∧ (0 : Int) ≤ 2 ∧ (1 : Int) / 128 + 1 < imageB.size ∧
      ∃ d1, inode_save imageB 1 (inodeAt imageB 2) = some d1 ∧
        inode_load d1 2 = (if (2 : Int) = 1 then some (inodeAt imageB 2) else inode_load imageB 2) ∧
        d1.size = imageB.size ∧
        ∀ b, b ≠ ((1 : Int) / 128 + 1).toNat → d1.blocks b = imageB.blocks b :=
  ⟨by decide, by decide, by decide,
    inode_save_load imageB 1 2 (inodeAt imageB 2) (by decide) (by decide) (by decide)⟩

/-! ## Remounting (C18) -/

/-- A successful `fs_mount` leaves the disk, sets the flag to 1, and builds a map
that any state with the same disk obtains as well. -/
theorem fs_mount_success (s t : FS) (h : fs_mount s = some (1, t)) :
    ∃ m, t = { disk := s.disk, FREE_BLOCK_MAP := m, MOUNTED := 1 } ∧
      ∀ s1 : FS, s1.disk = s.disk →
        fs_mount s1 = some (1, { disk := s.disk, FREE_BLOCK_MAP := m, MOUNTED := 1 }) := by
  unfold fs_mount at h
  cases hr : disk_read s.disk 0 with
  | none =>
    rw [hr] at h
    exact absurd h (by simp)
  | some sb =>
    rw [hr, Option.some_bind] at h
    by_cases hmg : toUInt32 sb.super.magic ≠ FS_MAGIC
    · rw [if_pos hmg] at h
      simp at h
    · rw [if_neg hmg] at h
      simp only [Option.bind_eq_some] at h
      obtain ⟨m0, h0, m, h1, hres⟩ := h
      simp only [Option.some.injEq, Prod.mk.injEq, true_and] at hres
      refine ⟨m, hres.symm, ?_⟩
      intro s1 hd
      unfold fs_mount
      rw [hd, hr, Option.some_bind, if_neg hmg, h0, Option.some_bind, h1, Option.some_bind]

/-- C18: if `fs_mount` succeeds in state `s` with result state `t`, then `t` has
the disk of `s` and the flag 1, every state with the same disk (whatever its map
and flag) mounts to the same `t`, and mounting again in `t` yields `t` again. -/
theorem fs_mount_idempotent (s t : FS) (h : fs_mount s = some (1, t)) :
    t.disk = s.disk ∧ t.MOUNTED = 1 ∧
      (∀ s1 : FS, s1.disk = s.disk → fs_mount s1 = some (1, t)) ∧
      fs_mount t = some (1, t) := by
  obtain ⟨m, ht, hall⟩ := fs_mount_success s t h
  subst ht
  exact ⟨rfl, rfl, hall, hall _ rfl⟩

set_option maxRecDepth 100000 in
/-- C18, witness: the theorem applied to the mount of the boot state on `imageB`. -/
theorem fs_mount_idempotent_witness :
    fs_mount (boot imageB) = some (1, stateAfter (boot imageB) (fs_mount (boot imageB))) ∧
      (stateAfter (boot imageB) (fs_mount (boot imageB))).disk = (boot imageB).disk ∧
      (stateAfter (boot imageB) (fs_mount (boot imageB))).MOUNTED = 1 ∧
      (∀ s1 : FS, s1.disk = (boot imageB).disk →
        fs_mount s1 = some (1, stateAfter (boot imageB) (fs_mount (boot imageB)))) ∧
      fs_mount (stateAfter (boot imageB) (fs_mount (boot imageB))) =
        some (1, stateAfter (boot imageB) (fs_mount (boot imageB))) :=
  ⟨result_eq_of_fst (boot imageB) (by decide),
    fs_mount_idempotent (boot imageB) _ (result_eq_of_fst (boot imageB) (by decide))⟩

/-! ## Delete without an indirect block (C19) -/

set_option maxRecDepth 100000 in
/-- C19, the code at the failing input: after `format; mount; create` on a
20-block device, inode 1 is valid, all its direct pointers and its indirect
pointer are 0, the map has 20 entries and marks block 0 in use.  The first loop
of `fs_delete(1)` clears entry 0, which is no direct block of the inode; then
block 0 is read as an indirect block, its word 1 is `nblocks = 20`, and the
assignment `FREE_BLOCK_MAP[20] = 0` is out of bounds, so the call has no defined
result. -/
theorem fs_delete_reads_block_zero :
    freshVolume.map (fun s =>
        ((s.MOUNTED, (inodeAt s.disk 1).isvalid, (inodeAt s.disk 1).indirect,
            decide (∀ k, (inodeAt s.disk 1).direct k = 0)),
          (s.FREE_BLOCK_MAP.len, s.FREE_BLOCK_MAP.bits 0,
            (delete_direct (inodeAt s.disk 1).cleared s.FREE_BLOCK_MAP).map
              (fun m => m.bits 0)),
          ((s.disk.blocks 0).pointers 1, (fs_delete s 1).isSome)))
      = some ((1, 1, 0, true), (20, 1, some 0), (20, false)) := by
  decide

/-! ## The inode table of a fresh superblock (C20) -/

theorem forEach_preserves {ι σ : Type} (body : ι → σ → Option σ) (P : σ → Prop)
    (hbody : ∀ i s s1, P s → body i s = some s1 → P s1) (l : List ι) (s s1 : σ)
    (hs : P s) (h : forEach body l s = some s1) : P s1 := by
  induction l generalizing s with
  | nil =>
    simp only [forEach, Option.some.injEq] at h
    rw [← h]
    exact hs
  | cons i l ih =>
    simp only [forEach, Option.bind_eq_some] at h
    obtain ⟨s2, h1, h2⟩ := h
    exact ih s2 (hbody i s s2 hs h1) h2

theorem format_loop_size (n : Int) (d d1 : Disk) (h : format_loop n d = some d1) :
    d1.size = d.size := by
  unfold format_loop at h
  refine forEach_preserves _ (fun e => e.size = d.size) ?_ _ d d1 rfl h
  intro k e e1 he hbody
  simp only [Option.bind_eq_some] at hbody
  obtain ⟨blk, -, hw⟩ := hbody
  obtain ⟨-, rfl⟩ := disk_write_eq_some.1 hw
  exact he

/-- A successful `fs_format` keeps the device size, the map and the flag, and
leaves in block 0 the superblock built from the device size. -/
theorem fs_format_success (junk : Block) (s s1 : FS) (h : fs_format junk s = some (1, s1)) :
    s.MOUNTED = 0 ∧ s1.disk.size = s.disk.size ∧
      s1.disk.blocks 0 = format_sblock junk s.disk.size ∧
      s1.FREE_BLOCK_MAP = s.FREE_BLOCK_MAP ∧ s1.MOUNTED = s.MOUNTED := by
  unfold fs_format at h
  by_cases hm : s.MOUNTED ≠ 0
  · rw [if_pos hm] at h
    simp at h
  · rw [if_neg hm] at h
    simp only [Option.bind_eq_some] at h
    obtain ⟨blk, -, d1, hloop, d2, hw, hres⟩ := h
    simp only [Option.some.injEq, Prod.mk.injEq, true_and] at hres
    have hsize := format_loop_size _ _ _ hloop
    obtain ⟨-, rfl⟩ := disk_write_eq_some.1 hw
    subst hres
    refine ⟨not_not.1 hm, hsize, ?_, rfl, rfl⟩
    simp [disk_size, hsize]

set_option maxRecDepth 100000 in
/-- C20, counterexample: on a device of exactly one block `fs_format` returns 1
and writes `nblocks = 1` and `ninodeblocks = 1`, so `ninodeblocks < nblocks`
fails; the inode table block 1 is outside the device and the following
`fs_mount` does not return. -/
theorem fs_format_one_block :
    (fs_format (fun _ => 0) (boot (zeroDisk 1))).map (fun r =>
        (r.1, r.2.disk.super.nblocks, r.2.disk.super.ninodeblocks,
          decide (r.2.disk.super.ninodeblocks < r.2.disk.super.nblocks),
          (fs_mount r.2).isSome))
      = some (1, 1, 1, false, false) := by
  decide

/-- C20, amended: on every device with at least two blocks, the superblock
written by a successful `fs_format` has `nblocks` equal to the device size and
`1 ≤ ninodeblocks < nblocks`, so the inode table lies inside the device, and on
a map of the `nblocks` entries that `fs_mount` allocates the assignments that
mark block 0 and the inode-table blocks `1 .. ninodeblocks` are all in bounds. -/
theorem fs_format_table_inside (junk : Block) (s s1 : FS)
    (h : fs_format junk s = some (1, s1)) (hsz : 2 ≤ s.disk.size) :
    s1.disk.size = s.disk.size ∧ s1.disk.super.nblocks = s1.disk.size ∧
      1 ≤ s1.disk.super.ninodeblocks ∧
      s1.disk.super.ninodeblocks < s1.disk.super.nblocks ∧
      ∀ m : BlockMap, m.len = (BlockMap.calloc s1.disk.super.nblocks).len →
        ∀ b : Int, (b = 0 ∨ (1 ≤ b ∧ b ≤ s1.disk.super.ninodeblocks)) →
          (0 ≤ b ∧ b < m.len) ∧ (m.set b 1).isSome = true := by
  obtain ⟨-, hsize, hblk, -, -⟩ := fs_format_success junk s s1 h
  have hnb : s1.disk.super.nblocks = s.disk.size := by
    simp [Disk.super, Block.super, hblk, format_sblock]
  have hnib : s1.disk.super.ninodeblocks =
      if Int.tdiv (s.disk.size : Int) 10 = 0 then 1 else Int.tdiv (s.disk.size : Int) 10 := by
    simp [Disk.super, Block.super, hblk, format_sblock]
  have htd : Int.tdiv (s.disk.size : Int) 10 = (s.disk.size : Int) / 10 :=
    Int.tdiv_eq_ediv (by omega) (by omega)
  rw [htd] at hnib
  have h1 : 1 ≤ s1.disk.super.ninodeblocks := by
    rw [hnib]
    split_ifs <;> omega
  have h2 : s1.disk.super.ninodeblocks < s1.disk.super.nblocks := by
    rw [hnib, hnb]
    split_ifs <;> omega
  refine ⟨hsize, by rw [hnb, hsize], h1, h2, ?_⟩
  intro m hlen b hb
  have hlen1 : (m.len : Int) = s1.disk.super.nblocks := by
    rw [hlen]
    show ((s1.disk.super.nblocks.toNat : Nat) : Int) = _
    omega
  have hin : 0 ≤ b ∧ b < m.len := by
    rcases hb with hb | hb <;> omega
  refine ⟨hin, ?_⟩
  simp [BlockMap.set, hin]

set_option maxRecDepth 100000 in
/-- C20, witness: the amended theorem applied to the format of a zeroed device of
20 blocks. -/
theorem fs_format_table_inside_witness :
    fs_format (fun _ => 0) (boot (zeroDisk 20)) =
        some (1, stateAfter (boot (zeroDisk 20)) (fs_format (fun _ => 0) (boot (zeroDisk 20)))) ∧
      2 ≤ (boot (zeroDisk 20)).disk.size ∧
      ((stateAfter (boot (zeroDisk 20))
            (fs_format (fun _ => 0) (boot (zeroDisk 20)))).disk.size =
          (boot (zeroDisk 20)).disk.size ∧
        (stateAfter (boot (zeroDisk 20))
            (fs_format (fun _ => 0) (boot (zeroDisk 20)))).disk.super.nblocks =
          (stateAfter (boot (zeroDisk 20))
            (fs_format (fun _ => 0) (boot (zeroDisk 20)))).disk.size ∧
        1 ≤ (stateAfter (boot (zeroDisk 20))
            (fs_format (fun _ => 0) (boot (zeroDisk 20)))).disk.super.ninodeblocks ∧
        (stateAfter (boot (zeroDisk 20))
            (fs_format (fun _ => 0) (boot (zeroDisk 20)))).disk.super.ninodeblocks <
          (stateAfter (boot (zeroDisk 20))
            (fs_format (fun _ => 0) (boot (zeroDisk 20)))).disk.super.nblocks ∧
        ∀ m : BlockMap,
          m.len = (BlockMap.calloc (stateAfter (boot (zeroDisk 20))
            (fs_format (fun _ => 0) (boot (zeroDisk 20)))).disk.super.nblocks).len →
          ∀ b : Int, (b = 0 ∨ (1 ≤ b ∧ b ≤ (stateAfter (boot (zeroDisk 20))
              (fs_format (fun _ => 0) (boot (zeroDisk 20)))).disk.super.ninodeblocks)) →
            (0 ≤ b ∧ b < m.len) ∧ (m.set b 1).isSome = true) :=
  ⟨result_eq_of_fst (boot (zeroDisk 20)) (by decide), by decide,
    fs_format_table_inside (fun _ => 0) (boot (zeroDisk 20)) _
      (result_eq_of_fst (boot (zeroDisk 20)) (by decide)) (by decide)⟩

end Fs
